import Mathlib

set_option maxHeartbeats 1000000

/-!
Shallow embedding of the helm_visualizer core (reference extraction,
chart assembly, graph building, layout) for verification.

JS strings are modelled as lists of characters (`Str`), JS string
methods (`split`, `toLowerCase`, concatenation) as the corresponding
list operations, and JS `Map`s as insertion-ordered association lists.
Numbers that the source manipulates exactly (line numbers, indices,
pixel offsets) are modelled as `Nat`/`Rat`.
-/

namespace HelmViz

abbrev Str := List Char

/-- JS `String.prototype.split(sep)` for a one-character separator:
`"".split(c) = [""]`, and a trailing separator yields a trailing empty chunk. -/
def splitChar (sep : Char) : Str → List Str
  | [] => [[]]
  | c :: rest =>
    if c = sep then [] :: splitChar sep rest
    else
      match splitChar sep rest with
      | [] => [[c]]
      | chunk :: chunks => (c :: chunk) :: chunks

/-- `Array.prototype.join(sep)` for a one-character separator. -/
def joinChar (sep : Char) : List Str → Str
  | [] => []
  | [chunk] => chunk
  | chunk :: rest => chunk ++ sep :: joinChar sep rest

/-- JS `String.prototype.toLowerCase()` (ASCII range suffices here). -/
def toLowerStr (s : Str) : Str := s.map Char.toLower

/-- Lexicographic order on strings by char code; models `localeCompare`
returning a negative number (the sources only compare ASCII paths/keys). -/
def lexLt : Str → Str → Bool
  | [], [] => false
  | [], _ :: _ => true
  | _ :: _, [] => false
  | a :: as, b :: bs => if a = b then lexLt as bs else a < b

/-- JS `String.prototype.includes(needle)`. -/
def isSubstring (needle : Str) : Str → Bool
  | [] => needle.isEmpty
  | c :: rest => List.isPrefixOf needle (c :: rest) || isSubstring needle rest

/-- JS `Map.prototype.get`: first (unique) matching key. -/
def mapGet {β : Type} (m : List (Str × β)) (k : Str) : Option β :=
  match m with
  | [] => none
  | (k2, v) :: rest => if k2 = k then some v else mapGet rest k

/-- JS `Map.prototype.set`: update in place if the key exists (keeping
insertion order), otherwise append. -/
def mapSet {β : Type} (m : List (Str × β)) (k : Str) (v : β) : List (Str × β) :=
  match m with
  | [] => [(k, v)]
  | (k2, v2) :: rest => if k2 = k then (k2, v) :: rest else (k2, v2) :: mapSet rest k v

/-- JS `Set` insertion order (worker): keep the first occurrence of each
element not already seen. -/
def dedupFirstGo (seen : List Str) : List Str → List Str
  | [] => []
  | x :: xs => if seen.contains x then dedupFirstGo seen xs else x :: dedupFirstGo (seen ++ [x]) xs

/-- JS `Array.from(new Set(...))`: first-occurrence order. -/
def dedupFirst (l : List Str) : List Str := dedupFirstGo [] l

/-- Stable insertion step for `sortBy`: `x` is placed before the first
element `y` that is not strictly less than it, so equal elements keep
their original relative order (JS `Array.prototype.sort` is stable). -/
def insertBy {α : Type} (lt : α → α → Bool) (x : α) : List α → List α
  | [] => [x]
  | y :: ys => if lt y x then y :: insertBy lt x ys else x :: y :: ys

/-- Stable sort realising JS `Array.prototype.sort(cmp)` for a comparator
that is a total preorder (all comparators in the sources are). -/
def sortBy {α : Type} (lt : α → α → Bool) : List α → List α
  | [] => []
  | x :: xs => insertBy lt x (sortBy lt xs)

/-! ## Reference extraction (template-parser.ts) -/

/-- `[a-zA-Z_]` (JS regexes in the source are ASCII-only). -/
def isIdentStart (c : Char) : Bool := c.isAlpha || c = '_'

/-- `[a-zA-Z0-9_]`. -/
def isIdentChar (c : Char) : Bool := c.isAlphanum || c = '_'

/-- JS `\s` on the characters that can occur inside a line. -/
def jsSpace (c : Char) : Bool :=
  c = ' ' || c = '\t' || c = '\x0b' || c = '\x0c' || c = '\r' || c = '\n'

/-- One segment of the `.Values` path pattern:
`\.[a-zA-Z_][a-zA-Z0-9_]*` or `\[[^\]]+\]`.  Returns the matched
segment text and the remaining input. -/
def parseSeg : Str → Option (Str × Str)
  | '.' :: c :: rest =>
    if isIdentStart c then
      some ('.' :: c :: rest.takeWhile isIdentChar, rest.dropWhile isIdentChar)
    else none
  | '[' :: rest =>
    let inner := rest.takeWhile (fun c => c ≠ ']')
    if inner.isEmpty then none
    else
      match rest.dropWhile (fun c => c ≠ ']') with
      | ']' :: rest2 => some ('[' :: inner ++ [']'], rest2)
      | _ => none
  | _ => none

/-- Greedy `(...)+` over segments (the regex suffix group): one or more
segments, as many as possible.  `fuel` bounds recursion; every call site
supplies fuel at least the input length, which is always enough because
each segment consumes at least one character. -/
def segsGo : Nat → Str → Option (Str × Str)
  | 0, _ => none
  | fuel + 1, l =>
    match parseSeg l with
    | none => none
    | some (s, r) =>
      match segsGo fuel r with
      | some (s2, r2) => some (s ++ s2, r2)
      | none => some (s, r)

def valuesLit : Str := ".Values".data

/-- JS `String.prototype.replace(/^\./, '')`. -/
def stripDot : Str → Str
  | '.' :: rest => rest
  | l => l

/-- Try to match `\.Values((?:\.[a-zA-Z_][a-zA-Z0-9_]*|\[[^\]]+\])+)` at
the head of the input.  Returns `((match0, group1stripped), rest)`. -/
def valuesMatch (l : Str) : Option ((Str × Str) × Str) :=
  if List.isPrefixOf valuesLit l then
    match segsGo (l.drop 7).length (l.drop 7) with
    | some (chain, r) => some ((valuesLit ++ chain, stripDot chain), r)
    | none => none
  else none

/-- `regex.exec` loop with the `g` flag: repeatedly try to match at the
current position; on failure advance one character, on success continue
after the match.  `fuel` at least the input length always suffices
because every match is non-empty. -/
def scanLoop {α : Type} (m : Str → Option (α × Str)) : Nat → Str → List α
  | 0, _ => []
  | fuel + 1, l =>
    match l with
    | [] => []
    | _ :: rest =>
      match m l with
      | some (a, r) => a :: scanLoop m fuel r
      | none => scanLoop m fuel rest

def valuesScan (l : Str) : List (Str × Str) := scanLoop valuesMatch l.length l

inductive ReferenceType where
  | values | includeT | template | chart | release | files | capabilities
deriving DecidableEq, Repr

structure ReferenceSource where
  file : Str
  line : Nat
deriving DecidableEq, Repr

structure ReferenceTarget where
  type : Str
  path : Str
deriving DecidableEq, Repr

structure Reference where
  id : Str
  type : ReferenceType
  source : ReferenceSource
  target : ReferenceTarget
  expression : Str
  line : Nat
deriving DecidableEq, Repr

/-- The common template-literal shape of every reference id:
`` `${filePath}:${lineNum}:<tail>` ``. -/
def mkId (filePath : Str) (lineNum : Nat) (tail : Str) : Str :=
  filePath ++ ':' :: (Nat.repr lineNum).data ++ ':' :: tail

def extractValuesReferences (line : Str) (filePath : Str) (lineNum : Nat) : List Reference :=
  (valuesScan line).map (fun m =>
    { id := mkId filePath lineNum ("values".data ++ ':' :: m.2)
      type := .values
      source := { file := filePath, line := lineNum }
      target := { type := "value".data, path := m.2 }
      expression := m.1
      line := lineNum })

/-- Try `\{\{\s*(?:-\s*)?<kw>\s+"([^"]+)"` at the head of the input;
returns `((match0, group1), rest)`. -/
def braceCallMatch (kw : Str) (l : Str) : Option ((Str × Str) × Str) :=
  match l with
  | '\x7b' :: '\x7b' :: r1 =>
    let sp1 := r1.takeWhile jsSpace
    let r2 := r1.dropWhile jsSpace
    let dashed : Str × Str :=
      match r2 with
      | '-' :: r2a => ('-' :: r2a.takeWhile jsSpace, r2a.dropWhile jsSpace)
      | _ => ([], r2)
    let dash := dashed.1
    let r3 := dashed.2
    if List.isPrefixOf kw r3 then
      let r4 := r3.drop kw.length
      let sp2 := r4.takeWhile jsSpace
      let r5 := r4.dropWhile jsSpace
      if sp2.isEmpty then none
      else
        match r5 with
        | '"' :: r6 =>
          let name := r6.takeWhile (fun c => c ≠ '"')
          if name.isEmpty then none
          else
            match r6.dropWhile (fun c => c ≠ '"') with
            | '"' :: r7 =>
              some (('\x7b' :: '\x7b' :: sp1 ++ dash ++ kw ++ sp2 ++ '"' :: name ++ ['"'], name), r7)
            | _ => none
        | _ => none
    else none
  | _ => none

def includeScan (l : Str) : List (Str × Str) :=
  scanLoop (braceCallMatch ("include".data)) l.length l

def templateScan (l : Str) : List (Str × Str) :=
  scanLoop (braceCallMatch ("template".data)) l.length l

/-- Try `\.<word>\.([a-zA-Z]+)` at the head of the input (used for the
`.Chart` and `.Release` patterns); returns `((match0, group1), rest)`. -/
def dotPropMatch (word : Str) (l : Str) : Option ((Str × Str) × Str) :=
  if List.isPrefixOf ('.' :: word ++ ['.']) l then
    let r1 := l.drop (word.length + 2)
    let prop := r1.takeWhile Char.isAlpha
    if prop.isEmpty then none
    else some (('.' :: word ++ '.' :: prop, prop), r1.dropWhile Char.isAlpha)
  else none

def chartScan (l : Str) : List (Str × Str) :=
  scanLoop (dotPropMatch ("Chart".data)) l.length l

def releaseScan (l : Str) : List (Str × Str) :=
  scanLoop (dotPropMatch ("Release".data)) l.length l

/-- Try `\.Files\.([a-zA-Z]+)\s*(?:"([^"]+)")?` at the head of the input;
returns `((match0, method, arg), rest)` where `arg = []` models the
absent optional group (`match[2] || ''`). -/
def filesMatch (l : Str) : Option ((Str × Str × Str) × Str) :=
  if List.isPrefixOf (".Files.".data) l then
    let r1 := l.drop 7
    let method := r1.takeWhile Char.isAlpha
    if method.isEmpty then none
    else
      let r2 := r1.dropWhile Char.isAlpha
      let sp := r2.takeWhile jsSpace
      let r3 := r2.dropWhile jsSpace
      let noArg : (Str × Str × Str) × Str := ((".Files.".data ++ method ++ sp, method, []), r3)
      match r3 with
      | '"' :: r4 =>
        let arg := r4.takeWhile (fun c => c ≠ '"')
        if arg.isEmpty then some noArg
        else
          match r4.dropWhile (fun c => c ≠ '"') with
          | '"' :: r5 =>
            some ((".Files.".data ++ method ++ sp ++ '"' :: arg ++ ['"'], method, arg), r5)
          | _ => some noArg
      | _ => some noArg
  else none

def filesScan (l : Str) : List (Str × Str × Str) := scanLoop filesMatch l.length l

/-- Greedy `(?:\.[a-zA-Z]+)+` for the `.Capabilities` pattern. -/
def alphaSegsGo : Nat → Str → Option (Str × Str)
  | 0, _ => none
  | fuel + 1, l =>
    match l with
    | '.' :: r =>
      let a := r.takeWhile Char.isAlpha
      if a.isEmpty then none
      else
        let r2 := r.dropWhile Char.isAlpha
        match alphaSegsGo fuel r2 with
        | some (s2, r3) => some ('.' :: a ++ s2, r3)
        | none => some ('.' :: a, r2)
    | _ => none

/-- Try `\.Capabilities((?:\.[a-zA-Z]+)+)` at the head of the input. -/
def capabilitiesMatch (l : Str) : Option ((Str × Str) × Str) :=
  if List.isPrefixOf (".Capabilities".data) l then
    match alphaSegsGo (l.drop 13).length (l.drop 13) with
    | some (chain, r) => some ((".Capabilities".data ++ chain, stripDot chain), r)
    | none => none
  else none

def capabilitiesScan (l : Str) : List (Str × Str) :=
  scanLoop capabilitiesMatch l.length l

def extractIncludeReferences (line : Str) (filePath : Str) (lineNum : Nat) : List Reference :=
  (includeScan line).map (fun m =>
    { id := mkId filePath lineNum ("include".data ++ ':' :: m.2)
      type := .includeT
      source := { file := filePath, line := lineNum }
      target := { type := "helper".data, path := m.2 }
      expression := m.1
      line := lineNum }) ++
  (templateScan line).map (fun m =>
    { id := mkId filePath lineNum ("template".data ++ ':' :: m.2)
      type := .template
      source := { file := filePath, line := lineNum }
      target := { type := "helper".data, path := m.2 }
      expression := m.1
      line := lineNum })

def extractChartReferences (line : Str) (filePath : Str) (lineNum : Nat) : List Reference :=
  (chartScan line).map (fun m =>
    { id := mkId filePath lineNum ("chart".data ++ ':' :: m.2)
      type := .chart
      source := { file := filePath, line := lineNum }
      target := { type := "chart".data, path := m.2 }
      expression := m.1
      line := lineNum })

def extractReleaseReferences (line : Str) (filePath : Str) (lineNum : Nat) : List Reference :=
  (releaseScan line).map (fun m =>
    { id := mkId filePath lineNum ("release".data ++ ':' :: m.2)
      type := .release
      source := { file := filePath, line := lineNum }
      target := { type := "release".data, path := m.2 }
      expression := m.1
      line := lineNum })

def extractFilesReferences (line : Str) (filePath : Str) (lineNum : Nat) : List Reference :=
  (filesScan line).map (fun m =>
    { id := mkId filePath lineNum ("files".data ++ ':' :: m.2.1 ++ ':' :: m.2.2)
      type := .files
      source := { file := filePath, line := lineNum }
      target := { type := "file".data, path := if m.2.2.isEmpty then m.2.1 else m.2.2 }
      expression := m.1
      line := lineNum })

def extractCapabilitiesReferences (line : Str) (filePath : Str) (lineNum : Nat) : List Reference :=
  (capabilitiesScan line).map (fun m =>
    { id := mkId filePath lineNum ("capabilities".data ++ ':' :: m.2)
      type := .capabilities
      source := { file := filePath, line := lineNum }
      target := { type := "capability".data, path := m.2 }
      expression := m.1
      line := lineNum })

/-- All references produced from one physical line (the body of the
`lines.forEach` in `extractReferences`, in source order). -/
def lineReferences (line : Str) (filePath : Str) (lineNum : Nat) : List Reference :=
  extractValuesReferences line filePath lineNum ++
  extractIncludeReferences line filePath lineNum ++
  extractChartReferences line filePath lineNum ++
  extractReleaseReferences line filePath lineNum ++
  extractFilesReferences line filePath lineNum ++
  extractCapabilitiesReferences line filePath lineNum

def extractReferences (content : Str) (filePath : Str) : List Reference :=
  (splitChar '\n' content).enum.flatMap (fun p => lineReferences p.2 filePath (p.1 + 1))

/-! ## Helper-definition extraction -/

structure HelperDefinition where
  name : Str
  file : Str
  line : Nat
  content : Str
deriving DecidableEq, Repr

/-- JS `String.prototype.trim()`. -/
def jsTrim (s : Str) : Str :=
  ((s.dropWhile jsSpace).reverse.dropWhile jsSpace).reverse

/-- Try `\{\{-?\s*define\s+"([^"]+)"\s*-?\}\}` at the head of the input;
returns `(consumed, name, rest)`. -/
def defOpenMatch (l : Str) : Option (Str × Str × Str) :=
  match l with
  | '\x7b' :: '\x7b' :: r1 =>
    let dashed1 : Str × Str :=
      match r1 with
      | '-' :: r1a => (['-'], r1a)
      | _ => ([], r1)
    let sp1 := dashed1.2.takeWhile jsSpace
    let r2 := dashed1.2.dropWhile jsSpace
    if List.isPrefixOf ("define".data) r2 then
      let r3 := r2.drop 6
      let sp2 := r3.takeWhile jsSpace
      let r4 := r3.dropWhile jsSpace
      if sp2.isEmpty then none
      else
        match r4 with
        | '"' :: r5 =>
          let name := r5.takeWhile (fun c => c ≠ '"')
          if name.isEmpty then none
          else
            match r5.dropWhile (fun c => c ≠ '"') with
            | '"' :: r6 =>
              let sp3 := r6.takeWhile jsSpace
              let r7 := r6.dropWhile jsSpace
              let dashed2 : Str × Str :=
                match r7 with
                | '-' :: r7a => (['-'], r7a)
                | _ => ([], r7)
              match dashed2.2 with
              | '\x7d' :: '\x7d' :: r8 =>
                some ('\x7b' :: '\x7b' :: dashed1.1 ++ sp1 ++ "define".data ++ sp2 ++
                        '"' :: name ++ '"' :: sp3 ++ dashed2.1 ++ ['\x7d', '\x7d'],
                      name, r8)
              | _ => none
            | _ => none
        | _ => none
    else none
  | _ => none

/-- Try `\{\{-?\s*end\s*-?\}\}` at the head of the input. -/
def defEndMatch (l : Str) : Option (Str × Str) :=
  match l with
  | '\x7b' :: '\x7b' :: r1 =>
    let dashed1 : Str × Str :=
      match r1 with
      | '-' :: r1a => (['-'], r1a)
      | _ => ([], r1)
    let sp1 := dashed1.2.takeWhile jsSpace
    let r2 := dashed1.2.dropWhile jsSpace
    if List.isPrefixOf ("end".data) r2 then
      let r3 := r2.drop 3
      let sp2 := r3.takeWhile jsSpace
      let r4 := r3.dropWhile jsSpace
      let dashed2 : Str × Str :=
        match r4 with
        | '-' :: r4a => (['-'], r4a)
        | _ => ([], r4)
      match dashed2.2 with
      | '\x7d' :: '\x7d' :: r5 =>
        some ('\x7b' :: '\x7b' :: dashed1.1 ++ sp1 ++ "end".data ++ sp2 ++
                dashed2.1 ++ ['\x7d', '\x7d'], r5)
      | _ => none
    else none
  | _ => none

/-- Lazy `([\s\S]*?)` up to the first position where the `end` marker
matches; returns `(body, endConsumed, rest)`. -/
def findEnd : Nat → Str → Option (Str × Str × Str)
  | 0, _ => none
  | fuel + 1, l =>
    match defEndMatch l with
    | some (e, r) => some ([], e, r)
    | none =>
      match l with
      | [] => none
      | c :: rest =>
        match findEnd fuel rest with
        | some (body, e, r) => some (c :: body, e, r)
        | none => none

/-- Scan loop for the `define ... end` regex, tracking the number of
newlines before the current position (for the reported line number).
An unterminated `define` fails the whole pattern at that start, so the
scan advances one character, exactly like the regex engine. -/
def helpersGo (filePath : Str) : Nat → Str → Nat → List HelperDefinition
  | 0, _, _ => []
  | fuel + 1, l, nl =>
    match l with
    | [] => []
    | c :: rest =>
      match defOpenMatch l with
      | some (op, name, r) =>
        match findEnd r.length r with
        | some (body, endTok, r2) =>
          { name := name, file := filePath, line := nl + 1, content := jsTrim body } ::
            helpersGo filePath fuel r2
              (nl + (op ++ body ++ endTok).count '\n')
        | none => helpersGo filePath fuel rest (nl + (if c = '\n' then 1 else 0))
      | none => helpersGo filePath fuel rest (nl + (if c = '\n' then 1 else 0))

def extractHelperDefinitions (content : Str) (filePath : Str) : List HelperDefinition :=
  helpersGo filePath content.length content 0

/-! ## YAML values model (yaml-parser.ts)

`js-yaml` is an external library; it is modelled as a parameter
`yamlLoad : Str → Except Str YVal` (an exception-throwing parser
producing a JS value). `YVal.null` stands for both `null` and
`undefined` (the sources never distinguish them). -/

inductive YVal where
  | null
  | bool (b : Bool)
  | num (n : Int)
  | str (s : Str)
  | arr (xs : List YVal)
  | obj (fields : List (Str × YVal))
deriving Repr

/-- JS truthiness. -/
def jsTruthy : YVal → Bool
  | .null => false
  | .bool b => b
  | .num n => n != 0
  | .str s => !s.isEmpty
  | .arr _ => true
  | .obj _ => true

/-- JS `a || b`. -/
def jsOr (a b : YVal) : YVal := if jsTruthy a then a else b

/-- JS property access `v[key]`; `undefined` is modelled as `.null`.
Property access on a primitive yields `undefined` (only `null`/`undefined`
bases throw, handled at the call sites). Array exotic properties
(`length` etc.) are not modelled — no call site reads them. -/
def getProp : YVal → Str → YVal
  | .obj kvs, k => (mapGet kvs k).getD .null
  | _, _ => .null

mutual
/-- JS `String(v)`. -/
def jsToString : YVal → Str
  | .null => "null".data
  | .bool true => "true".data
  | .bool false => "false".data
  | .num n => (toString n).data
  | .str s => s
  | .arr xs => joinChar ',' (jsToStringList xs)
  | .obj _ => "[object Object]".data

def jsToStringList : List YVal → List Str
  | [] => []
  | .null :: xs => [] :: jsToStringList xs
  | x :: xs => jsToString x :: jsToStringList xs
end

structure ValueKey where
  path : Str
  fullPath : Str
  value : YVal
  type : Str
deriving Repr

def getValueType : YVal → Str
  | .null => "null".data
  | .arr _ => "array".data
  | .str _ => "string".data
  | .num _ => "number".data
  | .bool _ => "boolean".data
  | .obj _ => "object".data

mutual
/-- `flattenValues` of yaml-parser.ts (the accumulator is made explicit
as list concatenation, preserving emission order).  For arrays the JS
prefix computation `prefix ? prefix[i] : [i]` equals `prefix ++ "[i]"`
in both branches. -/
def flattenValues : YVal → Str → List ValueKey
  | .null, _ => []
  | .bool b, p => [⟨p, ".Values.".data ++ p, .bool b, getValueType (.bool b)⟩]
  | .num n, p => [⟨p, ".Values.".data ++ p, .num n, getValueType (.num n)⟩]
  | .str s, p => [⟨p, ".Values.".data ++ p, .str s, getValueType (.str s)⟩]
  | .arr xs, p =>
    ⟨p, ".Values.".data ++ p, .arr xs, "array".data⟩ :: flattenArr xs 0 p
  | .obj kvs, p =>
    (if p.isEmpty then [] else [⟨p, ".Values.".data ++ p, .obj kvs, "object".data⟩]) ++
      flattenFields kvs p

def flattenArr : List YVal → Nat → Str → List ValueKey
  | [], _, _ => []
  | x :: xs, i, p =>
    flattenValues x (p ++ '[' :: (Nat.repr i).data ++ [']']) ++ flattenArr xs (i + 1) p

def flattenFields : List (Str × YVal) → Str → List ValueKey
  | [], _ => []
  | (k, v) :: rest, p =>
    flattenValues v (if p.isEmpty then k else p ++ '.' :: k) ++ flattenFields rest p
end

/-- Canonical decimal array index (JS `arr["0"]` hits element 0, but
`arr["00"]` does not). -/
def canonIndex (s : Str) : Option Nat :=
  if s.isEmpty then none
  else if !s.all Char.isDigit then none
  else if s ≠ ['0'] && s.head? = some '0' then none
  else some (s.foldl (fun n c => n * 10 + (c.toNat - 48)) 0)

/-- The walk loop of `getValueByPath`: at each step the current value
must be a non-null object (else `undefined`), then step to
`current[part]`. -/
def lookupParts : YVal → List Str → Option YVal
  | v, [] => some v
  | .obj kvs, k :: rest =>
    match mapGet kvs k with
    | some v => lookupParts v rest
    | none => none
  | .arr xs, k :: rest =>
    match canonIndex k with
    | some i =>
      match xs[i]? with
      | some v => lookupParts v rest
      | none => none
    | none => none
  | _, _ :: _ => none

def getValueByPath (obj : YVal) (path : Str) : Option YVal :=
  lookupParts obj (splitChar '.' path)

structure ValuesData where
  raw : YVal
  flatKeys : List ValueKey
deriving Repr

def parseValuesYaml (yamlLoad : Str → Except Str YVal) (content : Str) : ValuesData :=
  let raw :=
    match yamlLoad content with
    | .error _ => YVal.obj []
    | .ok v => if jsTruthy v then v else YVal.obj []
  { raw := raw, flatKeys := flattenValues raw [] }

structure ChartDependency where
  name : Str
  version : Str
  repository : Option Str
  condition : Option Str
  aliasName : Option Str
deriving DecidableEq, Repr

structure ChartYaml where
  name : Str
  version : Str
  apiVersion : Str
  description : Option Str
  type : Option Str
  appVersion : Option Str
  dependencies : List ChartDependency
deriving DecidableEq, Repr

def mkDependency (d : YVal) : ChartDependency :=
  { name := jsToString (jsOr (getProp d ("name".data)) (.str []))
    version := jsToString (jsOr (getProp d ("version".data)) (.str []))
    repository :=
      if jsTruthy (getProp d ("repository".data)) then some (jsToString (getProp d ("repository".data))) else none
    condition :=
      if jsTruthy (getProp d ("condition".data)) then some (jsToString (getProp d ("condition".data))) else none
    aliasName :=
      if jsTruthy (getProp d ("alias".data)) then some (jsToString (getProp d ("alias".data))) else none }

/-- The `deps.map` callback does `d.name` on the raw element with no
guard, so a `null` array element (YAML `~`) throws a `TypeError` at the
first such element. -/
def parseDependenciesGo : List YVal → Except Str (List ChartDependency)
  | [] => .ok []
  | d :: rest =>
    match d with
    | .null => .error ("TypeError: cannot read properties of null".data)
    | _ =>
      match parseDependenciesGo rest with
      | .error e => .error e
      | .ok ds => .ok (mkDependency d :: ds)

def parseDependencies : YVal → Except Str (List ChartDependency)
  | .arr deps => parseDependenciesGo deps
  | _ => .ok []

/-- The `ChartYaml` record literal of `parseChartYaml`, with the (already
computed) dependency list passed in. -/
def chartYamlOf (parsed : YVal) (deps : List ChartDependency) : ChartYaml :=
  { name := jsToString (jsOr (getProp parsed ("name".data)) (.str ("unknown".data)))
    version := jsToString (jsOr (getProp parsed ("version".data)) (.str ("0.0.0".data)))
    apiVersion := jsToString (jsOr (getProp parsed ("apiVersion".data)) (.str ("v2".data)))
    description :=
      if jsTruthy (getProp parsed ("description".data)) then some (jsToString (getProp parsed ("description".data))) else none
    type :=
      if jsTruthy (getProp parsed ("type".data)) then some (jsToString (getProp parsed ("type".data))) else none
    appVersion :=
      if jsTruthy (getProp parsed ("appVersion".data)) then some (jsToString (getProp parsed ("appVersion".data))) else none
    dependencies := deps }

/-- `parseChartYaml` has NO try/catch: a loader exception propagates, a
`null`/`undefined` parse result makes the `parsed.name` access throw a
`TypeError`, and a `TypeError` thrown inside `parseDependencies` (null
dependency element) propagates too. -/
def parseChartYaml (yamlLoad : Str → Except Str YVal) (content : Str) : Except Str ChartYaml :=
  match yamlLoad content with
  | .error e => .error e
  | .ok parsed =>
    match parsed with
    | .null => .error ("TypeError: cannot read properties of null".data)
    | _ =>
      match parseDependencies (getProp parsed ("dependencies".data)) with
      | .error e => .error e
      | .ok deps => .ok (chartYamlOf parsed deps)

/-! ## Chart assembly (helm-parser part of template-parser.ts) -/

inductive FileType where
  | chart | values | template | helper | notes | other
deriving DecidableEq, Repr

structure HelmFile where
  path : Str
  name : Str
  type : FileType
  content : Str
deriving DecidableEq, Repr

def chartIndicators : List Str :=
  ["Chart.yaml".data, "Chart.yml".data, "values.yaml".data, "values.yml".data, "templates".data]

def getFileName (path : Str) : Str := (splitChar '/' path).getLast?.getD []

def normalizePath (path : Str) : Str :=
  let n1 := path.dropWhile (fun c => c = '/')
  let n2 := n1.map (fun c => if c = '\\' then '/' else c)
  let parts := splitChar '/' n2
  if parts.length > 1 then
    if parts.any (fun p => chartIndicators.contains p) then
      match parts.findIdx? (fun p => p == "Chart.yaml".data || p == "Chart.yml".data) with
      | some i => if i > 0 then joinChar '/' (parts.drop i) else joinChar '/' (parts.drop 1)
      | none => joinChar '/' (parts.drop 1)
    else n2
  else n2

def determineFileType (path : Str) : FileType :=
  let lowerPath := toLowerStr path
  let fileName := toLowerStr (getFileName path)
  if fileName == "chart.yaml".data || fileName == "chart.yml".data then .chart
  else if fileName == "values.yaml".data || fileName == "values.yml".data then .values
  else if List.isSuffixOf (".tpl".data) fileName then .helper
  else if fileName == "notes.txt".data then .notes
  else if isSubstring ("templates/".data) lowerPath &&
      (List.isSuffixOf (".yaml".data) fileName || List.isSuffixOf (".yml".data) fileName) then .template
  else .other

/-- Translated with the source's exact check order: the `templates/`
admission test runs BEFORE the hidden-file and `charts/` exclusion
tests, and every path reaching those tests returns `false` anyway. -/
def isRelevantFile (path : Str) : Bool :=
  let lowerPath := toLowerStr path
  let fileName := toLowerStr (getFileName path)
  if fileName == "chart.yaml".data || fileName == "chart.yml".data then true
  else if fileName == "values.yaml".data || fileName == "values.yml".data then true
  else if isSubstring ("templates/".data) lowerPath &&
      (List.isSuffixOf (".yaml".data) fileName || List.isSuffixOf (".yml".data) fileName ||
        List.isSuffixOf (".tpl".data) fileName || fileName == "notes.txt".data) then true
  else if (match fileName with | '.' :: _ => true | _ => false) then false
  else if isSubstring ("charts/".data) lowerPath then false
  else false

structure HelmChart where
  name : Str
  version : Str
  description : Option Str
  files : List HelmFile
  values : ValuesData
  chartYaml : ChartYaml
  references : List Reference
  helpers : List HelperDefinition
  dependencies : List ChartDependency

structure ParseAcc where
  helmFiles : List HelmFile
  chartYaml : Option ChartYaml
  values : ValuesData
  references : List Reference
  helpers : List HelperDefinition

/-- The `for (const [rawPath, content] of files.entries())` loop of
`parseHelmChart`.  The input `Map` is modelled as an insertion-ordered
list of (path, content) pairs.  A `parseChartYaml` exception propagates
(there is no catch in the loop). -/
def parseFilesLoop (yamlLoad : Str → Except Str YVal) :
    List (Str × Str) → ParseAcc → Except Str ParseAcc
  | [], acc => .ok acc
  | (rawPath, content) :: rest, acc =>
    let path := normalizePath rawPath
    let name := getFileName path
    let fileType := determineFileType path
    if isRelevantFile path then
      let acc1 := { acc with helmFiles := acc.helmFiles ++ [⟨path, name, fileType, content⟩] }
      match fileType with
      | .chart =>
        match parseChartYaml yamlLoad content with
        | .error e => .error e
        | .ok cy => parseFilesLoop yamlLoad rest { acc1 with chartYaml := some cy }
      | .values =>
        parseFilesLoop yamlLoad rest { acc1 with values := parseValuesYaml yamlLoad content }
      | .template =>
        parseFilesLoop yamlLoad rest
          { acc1 with references := acc1.references ++ extractReferences content path }
      | .helper =>
        parseFilesLoop yamlLoad rest
          { acc1 with
              helpers := acc1.helpers ++ extractHelperDefinitions content path
              references := acc1.references ++ extractReferences content path }
      | .notes =>
        parseFilesLoop yamlLoad rest
          { acc1 with references := acc1.references ++ extractReferences content path }
      | .other => parseFilesLoop yamlLoad rest acc1
    else parseFilesLoop yamlLoad rest acc

def defaultChartYaml : ChartYaml :=
  { name := "unknown-chart".data, version := "0.0.0".data, apiVersion := "v2".data,
    description := none, type := none, appVersion := none, dependencies := [] }

def emptyValuesData : ValuesData := { raw := YVal.obj [], flatKeys := [] }

def parseHelmChart (yamlLoad : Str → Except Str YVal) (files : List (Str × Str)) :
    Except Str HelmChart :=
  match parseFilesLoop yamlLoad files ⟨[], none, emptyValuesData, [], []⟩ with
  | .error e => .error e
  | .ok acc =>
    let cy := acc.chartYaml.getD defaultChartYaml
    .ok { name := cy.name, version := cy.version, description := cy.description,
          files := acc.helmFiles, values := acc.values, chartYaml := cy,
          references := acc.references, helpers := acc.helpers,
          dependencies := cy.dependencies }

/-! ## Graph builder (graph-builder.ts) -/

structure Pos where
  x : Rat
  y : Rat
deriving DecidableEq, Repr

structure NodeData where
  label : Str
  fileType : Option FileType
  filePath : Option Str
  valuePath : Option Str
  helperName : Option Str
deriving DecidableEq, Repr

structure GraphNode where
  id : Str
  type : Str
  position : Pos
  data : NodeData
deriving DecidableEq, Repr

structure EdgeData where
  referenceType : ReferenceType
  expression : Str
deriving DecidableEq, Repr

structure GraphEdge where
  id : Str
  source : Str
  target : Str
  label : Str
  type : Str
  animated : Bool
  data : EdgeData
deriving DecidableEq, Repr

structure GraphData where
  nodes : List GraphNode
  edges : List GraphEdge

def createFileNode (path name : Str) (fileType : FileType) (x y : Rat) : GraphNode :=
  { id := "file:".data ++ path, type := "file".data, position := ⟨x, y⟩,
    data := { label := name, fileType := some fileType, filePath := some path,
              valuePath := none, helperName := none } }

def createValueNode (path label : Str) (x y : Rat) : GraphNode :=
  { id := "value:".data ++ path, type := "value".data, position := ⟨x, y⟩,
    data := { label := label, fileType := none, filePath := none,
              valuePath := some path, helperName := none } }

def createHelperNode (name : Str) (x y : Rat) : GraphNode :=
  { id := "helper:".data ++ name, type := "helper".data, position := ⟨x, y⟩,
    data := { label := name, fileType := none, filePath := none,
              valuePath := none, helperName := some name } }

def createReleaseNode (x y : Rat) : GraphNode :=
  { id := "release:info".data, type := "release".data, position := ⟨x, y⟩,
    data := { label := ".Release".data, fileType := none, filePath := none,
              valuePath := none, helperName := none } }

/-- `createEdge`: the JS `targetId = chartFile ? ... : ''` followed by
`if (!targetId) return null` is merged into the `none` branch; `files`
and `capabilities` fall into the `default: return null` arm. -/
def createEdge (ref : Reference) (chart : HelmChart) : Option GraphEdge :=
  let sourceId := "file:".data ++ ref.source.file
  let targetId? : Option Str :=
    match ref.type with
    | .values => some ("value:".data ++ ref.target.path)
    | .includeT | .template => some ("helper:".data ++ ref.target.path)
    | .chart =>
      match chart.files.find? (fun f => f.type == FileType.chart) with
      | some chartFile => some ("file:".data ++ chartFile.path)
      | none => none
    | .release => some ("release:info".data)
    | .files | .capabilities => none
  match targetId? with
  | none => none
  | some targetId =>
    some { id := ref.id, source := sourceId, target := targetId, label := ref.expression,
           type := "smoothstep".data, animated := false,
           data := { referenceType := ref.type, expression := ref.expression } }

def getReferencedValuePaths (chart : HelmChart) : List Str :=
  dedupFirst ((chart.references.filter (fun r => r.type == ReferenceType.values)).map
    (fun r => r.target.path))

/-- `path.includes('.') ? path.split('.').pop() || path : path`. -/
def valueNodeLabel (path : Str) : Str :=
  if isSubstring ['.'] path then
    let lc := (splitChar '.' path).getLast?.getD []
    if lc.isEmpty then path else lc
  else path

/-! ### Layout engine (`autoOrganizeLayout`)

The layout never reads the input positions (every node is assigned a
fresh position keyed by its id); this is made explicit by computing the
position map from the nodes' `NodeKey` projections (id, type, data) and
re-attaching positions at the end, exactly as the source builds
`nodePositions` and then maps over `nodes`. -/

structure NodeKey where
  id : Str
  type : Str
  data : NodeData
deriving DecidableEq, Repr

def nodeKey (n : GraphNode) : NodeKey := ⟨n.id, n.type, n.data⟩

def columnX : Nat → Rat
  | 0 => 0
  | 1 => 500
  | 2 => 1000
  | _ => 1600

def columnIndexOf (k : NodeKey) : Nat :=
  if k.type == "file".data then
    match k.data.fileType with
    | some .chart => 1
    | some .values => 1
    | _ => 0
  else if k.type == "chart".data || k.type == "release".data then 1
  else if k.type == "value".data then 2
  else if k.type == "helper".data then 3
  else 0

/-- The `outgoingEdges` / `incomingEdges` adjacency maps. -/
def buildAdj (edges : List GraphEdge) :
    List (Str × List Str) × List (Str × List Str) :=
  edges.foldl (fun acc e =>
    (mapSet acc.1 e.source (((mapGet acc.1 e.source).getD []) ++ [e.target]),
     mapSet acc.2 e.target (((mapGet acc.2 e.target).getD []) ++ [e.source]))) ([], [])

def degreeOf (og ic : List (Str × List Str)) (id : Str) : Nat :=
  ((mapGet og id).getD []).length + ((mapGet ic id).getD []).length

/-- The `nodes.forEach` push into `columnNodes[columnIndex]` — a stable
partition into the four columns. -/
def columnsOf (keys : List NodeKey) : List (List NodeKey) :=
  [keys.filter (fun k => columnIndexOf k == 0),
   keys.filter (fun k => columnIndexOf k == 1),
   keys.filter (fun k => columnIndexOf k == 2),
   keys.filter (fun k => columnIndexOf k == 3)]

def initialPositions (cols : List (List NodeKey)) : List (Str × Pos) :=
  cols.enum.foldl (fun m p =>
    p.2.enum.foldl (fun m2 q => mapSet m2 q.2.id ⟨columnX p.1, (q.1 : Rat) * 100⟩) m) []

/-- Comparator semantics of `(a, b) => a.barycenter - b.barycenter` under
JS sort: `Infinity` (no neighbours, modelled `none`) goes last, and the
`NaN` of `Infinity - Infinity` is treated as 0 (keep order). -/
def baryLt : Option Rat → Option Rat → Bool
  | some a, some b => a < b
  | some _, none => true
  | none, _ => false

def optimizeColumnOrder (col : List NodeKey) (posMap : List (Str × Pos))
    (ic og : List (Str × List Str)) : List (Str × Pos) :=
  let barys := col.map (fun k =>
    let connected := ((mapGet ic k.id).getD []) ++ ((mapGet og k.id).getD [])
    if connected.isEmpty then (k, (none : Option Rat))
    else
      let sum := connected.foldl (fun acc cid => acc + (((mapGet posMap cid).map Pos.y).getD 0)) (0 : Rat)
      (k, some (sum / (connected.length : Rat))))
  let sorted := sortBy (fun a b => baryLt a.2 b.2) barys
  let x : Rat :=
    match col.head? with
    | some k => ((mapGet posMap k.id).map Pos.x).getD 0
    | none => 0
  sorted.enum.foldl (fun m q => mapSet m q.2.1.id ⟨x, (q.1 : Rat) * 100⟩) posMap

/-- Five sweeps, each left-to-right over columns 1..3 then right-to-left
over columns 2..0. -/
def runSweeps (cols : List (List NodeKey)) (ic og : List (Str × List Str))
    (posMap : List (Str × Pos)) : List (Str × Pos) :=
  (List.range 5).foldl (fun pm _ =>
    let pm1 := [1, 2, 3].foldl (fun m i => optimizeColumnOrder (cols.getD i []) m ic og) pm
    [2, 1, 0].foldl (fun m i => optimizeColumnOrder (cols.getD i []) m ic og) pm1) posMap

def topLevelKey (k : NodeKey) : Str :=
  let path := k.data.valuePath.getD []
  let first := (splitChar '.' path).headD []
  if first.isEmpty then "other".data else first

/-- `groupValueNodesByPrefix`: JS `Map` grouping in insertion order, then
groups sorted by key (`localeCompare` modelled as code-point order). -/
def groupValueNodesByPrefix (nodes : List NodeKey) : List (List NodeKey) :=
  let groups := nodes.foldl (fun (m : List (Str × List NodeKey)) k =>
    mapSet m (topLevelKey k) (((mapGet m (topLevelKey k)).getD []) ++ [k])) []
  (sortBy (fun a b => lexLt a.1 b.1) groups).map Prod.snd

/-- Group pass over the value column: in-group sort by path depth then
path text, then repack y positions group by group with a 50-unit gap;
`verticalSpacing * 0.7 = 70`. -/
def applyValueGroups (valueCol : List NodeKey) (posMap : List (Str × Pos)) :
    List (Str × Pos) :=
  if valueCol.isEmpty then posMap
  else
    (((groupValueNodesByPrefix valueCol).foldl (fun (st : List (Str × Pos) × Rat) group =>
      let sortedGroup := sortBy (fun a b =>
        let da := (splitChar '.' (a.data.valuePath.getD [])).length
        let db := (splitChar '.' (b.data.valuePath.getD [])).length
        if da ≠ db then da < db
        else lexLt (a.data.valuePath.getD []) (b.data.valuePath.getD [])) group
      let pm2 := sortedGroup.enum.foldl (fun m q =>
        let pos := (mapGet m q.2.id).getD ⟨0, 0⟩
        let indent : Rat :=
          if (match q.2.data.valuePath with
              | none => 1
              | some p => (splitChar '.' p).length) > 1 then 30 else 0
        mapSet m q.2.id ⟨pos.x + indent, st.2 + (q.1 : Rat) * 70⟩) st.1
      (pm2, st.2 + (group.length : Rat) * 70 + 50)) (posMap, 0))).1

def colYs (col : List NodeKey) (posMap : List (Str × Pos)) : List Rat :=
  col.filterMap (fun k => (mapGet posMap k.id).map Pos.y)

def centerColumnsVertically (cols : List (List NodeKey)) (posMap : List (Str × Pos)) :
    List (Str × Pos) :=
  let maxHeight := cols.foldl (fun mh col =>
    if col.isEmpty then mh
    else
      match colYs col posMap with
      | [] => mh
      | y :: ys => max mh (ys.foldl max y - ys.foldl min y)) 0
  cols.foldl (fun pm col =>
    if col.isEmpty then pm
    else
      match colYs col pm with
      | [] => pm
      | y :: ys =>
        let minY := ys.foldl min y
        let maxY := ys.foldl max y
        let offset := (maxHeight - (maxY - minY)) / 2 - minY
        col.foldl (fun m k =>
          match mapGet m k.id with
          | some pos => mapSet m k.id ⟨pos.x, pos.y + offset⟩
          | none => m) pm) posMap

def computePositions (keys : List NodeKey) (edges : List GraphEdge) : List (Str × Pos) :=
  let adj := buildAdj edges
  let og := adj.1
  let ic := adj.2
  let cols := (columnsOf keys).map (fun col =>
    sortBy (fun a b => degreeOf og ic b.id < degreeOf og ic a.id) col)
  let pos0 := initialPositions cols
  let pos1 := runSweeps cols ic og pos0
  let pos2 := applyValueGroups (cols.getD 2 []) pos1
  centerColumnsVertically cols pos2

def autoOrganizeLayout (nodes : List GraphNode) (edges : List GraphEdge) : List GraphNode :=
  let posMap := computePositions (nodes.map nodeKey) edges
  nodes.map (fun n => { n with position := (mapGet posMap n.id).getD n.position })

def buildGraphData (chart : HelmChart) : GraphData :=
  let templateFiles := chart.files.filter (fun f =>
    f.type == FileType.template || f.type == FileType.helper || f.type == FileType.notes)
  let nodes :=
    templateFiles.map (fun f => createFileNode f.path f.name f.type 0 0) ++
    (match chart.files.find? (fun f => f.type == FileType.chart) with
     | some cf => [createFileNode cf.path cf.name .chart 0 0]
     | none => []) ++
    [createReleaseNode 0 0] ++
    (match chart.files.find? (fun f => f.type == FileType.values) with
     | some vf => [createFileNode vf.path vf.name .values 0 0]
     | none => []) ++
    (getReferencedValuePaths chart).map (fun p => createValueNode p (valueNodeLabel p) 0 0) ++
    chart.helpers.map (fun h => createHelperNode h.name 0 0)
  let edges := chart.references.filterMap (fun r => createEdge r chart)
  { nodes := autoOrganizeLayout nodes edges, edges := edges }

/-! ## Ingestion validation (DropZone.tsx) -/

/-- The `hasChartYaml` check in `handleDrop`: accept iff some ingested
path, lowercased, ENDS WITH `chart.yaml` or `chart.yml` (a suffix test
on the whole path, not a filename-equality test). -/
def hasChartYaml (paths : List Str) : Bool :=
  paths.any (fun p =>
    List.isSuffixOf ("chart.yaml".data) (toLowerStr p) ||
    List.isSuffixOf ("chart.yml".data) (toLowerStr p))

/-! ## Auxiliary definitions used to state the claims -/

/-- One syntactic segment of a `.Values` path, as the pattern's suffix
group generates them. -/
inductive Seg where
  | field (name : Str)
  | index (inner : Str)
deriving DecidableEq, Repr

def Seg.render : Seg → Str
  | .field n => '.' :: n
  | .index i => '[' :: i ++ [']']

/-- A segment the regex alternative accepts: a field is a nonempty
identifier, an index is a nonempty bracket body without `]`. -/
def Seg.valid : Seg → Bool
  | .field n =>
    match n with
    | [] => false
    | c :: cs => isIdentStart c && cs.all isIdentChar
  | .index i => !i.isEmpty && i.all (fun c => c ≠ ']')

/-- The rendered segment chain (what group 1 of the values pattern
captures, including its leading dot or bracket). -/
def chainStr (segs : List Seg) : Str := (segs.map Seg.render).flatten

def chainOk (segs : List Seg) : Bool := !segs.isEmpty && segs.all Seg.valid

/-- A character (or end of line) that cannot extend a segment chain nor
start a new segment. -/
def stopperOk (rest : Str) : Bool :=
  match rest with
  | [] => true
  | c :: _ => !isIdentChar c && c ≠ '.' && c ≠ '['

def keysOk : List Str → Bool
  | [] => true
  | k :: rest =>
    !k.isEmpty && !k.contains '.' && !(rest.any (fun k2 => k2 == k)) && keysOk rest

mutual
/-- Configuration trees on which the flatten/lookup round trip is
claimed to hold after amendment: no arrays, and object keys nonempty,
dot-free and duplicate-free (JS object keys are always unique). -/
def cleanVal : YVal → Bool
  | .null => true
  | .bool _ => true
  | .num _ => true
  | .str _ => true
  | .arr _ => false
  | .obj kvs => keysOk (kvs.map Prod.fst) && cleanFieldsList kvs

def cleanFieldsList : List (Str × YVal) → Bool
  | [] => true
  | (_, v) :: rest => cleanVal v && cleanFieldsList rest
end

/-- The type-name component each extractor writes into the reference id. -/
def tagOfType : ReferenceType → Str
  | .values => "values".data
  | .includeT => "include".data
  | .template => "template".data
  | .chart => "chart".data
  | .release => "release".data
  | .files => "files".data
  | .capabilities => "capabilities".data

/-- Modelled from the spec: the validation contract's wording — "at
least one ingested path's filename (case-insensitive) equals
`chart.yaml` or `chart.yml`" — as a predicate on one path, for
comparison with the code's suffix test. -/
def specFilenameIsChart (p : Str) : Bool :=
  toLowerStr (getFileName p) == "chart.yaml".data ||
  toLowerStr (getFileName p) == "chart.yml".data

/-- The reference `extractValuesReferences` emits for the occurrence of
`.Values<chain>` on (1-based) line `n` of file `f`. -/
def valuesRefOf (f : Str) (n : Nat) (segs : List Seg) : Reference :=
  { id := mkId f n ("values".data ++ ':' :: stripDot (chainStr segs))
    type := .values
    source := { file := f, line := n }
    target := { type := "value".data, path := stripDot (chainStr segs) }
    expression := valuesLit ++ chainStr segs
    line := n }

/-- A template line holding exactly one `.Values<chain>` occurrence
between an occurrence-free head and tail. -/
def c6Line (linePre linePost : Str) (segs : List Seg) : Str :=
  linePre ++ (valuesLit ++ (chainStr segs ++ linePost))

/-- A chart holding one template file whose single reference is an
`include` of a helper that has no definition (used to exhibit a dangling
edge target). -/
def c3Chart : HelmChart :=
  { name := ('c' :: []), version := ('1' :: []), description := none,
    files := [⟨"templates/d.yaml".data, "d.yaml".data, .template, ('y' :: [])⟩],
    values := emptyValuesData, chartYaml := defaultChartYaml,
    references := [⟨"templates/d.yaml:1:include:nope".data, .includeT,
      ⟨"templates/d.yaml".data, 1⟩, ⟨"helper".data, "nope".data⟩, "inc".data, 1⟩],
    helpers := [], dependencies := [] }

/-- The chart `parseHelmChart` produces for the one-file input
`c/templates/t.yaml ↦ ".Values.a"` with a loader returning null. -/
def c10Chart : HelmChart :=
  { name := "unknown-chart".data, version := "0.0.0".data, description := none,
    files := [⟨"templates/t.yaml".data, "t.yaml".data, .template, ".Values.a".data⟩],
    values := emptyValuesData, chartYaml := defaultChartYaml,
    references := [valuesRefOf ("templates/t.yaml".data) 1 [Seg.field ('a' :: [])]],
    helpers := [], dependencies := [] }

/-- The single edge `buildGraphData c10Chart` emits. -/
def c10Edge : GraphEdge :=
  { id := "templates/t.yaml:1:values:a".data, source := "file:templates/t.yaml".data,
    target := "value:a".data, label := ".Values.a".data, type := "smoothstep".data,
    animated := false,
    data := { referenceType := .values, expression := ".Values.a".data } }

/-! # Theorems

### Generic string lemmas -/

theorem splitChar_ne_nil (c : Char) (l : Str) : splitChar c l ≠ [] := by
  induction l with
  | nil => simp [splitChar]
  | cons x xs ih =>
    simp only [splitChar]
    split
    · simp
    · cases h : splitChar c xs with
      | nil => simp
      | cons a as => simp

theorem splitChar_append_cons (c : Char) (xs ys : Str) :
    splitChar c (xs ++ c :: ys) = splitChar c xs ++ splitChar c ys := by
  induction xs with
  | nil => simp [splitChar]
  | cons x xs ih =>
    by_cases hx : x = c
    · subst hx
      simp [splitChar, ih]
    · simp only [List.cons_append, splitChar, if_neg hx]
      cases h : splitChar c xs with
      | nil => exact absurd h (splitChar_ne_nil c xs)
      | cons a as =>
        rw [List.append_eq, ih, h]
        simp

theorem splitChar_no_sep (c : Char) (l : Str) (h : c ∉ l) : splitChar c l = [l] := by
  induction l with
  | nil => rfl
  | cons x xs ih =>
    have hx : ¬ x = c := by
      intro he
      exact h (he ▸ List.mem_cons_self x xs)
    have hxs := ih (fun hc => h (List.mem_cons_of_mem _ hc))
    simp [splitChar, hx, hxs]

theorem joinChar_splitChar (c : Char) (l : Str) : joinChar c (splitChar c l) = l := by
  induction l with
  | nil => rfl
  | cons x xs ih =>
    by_cases hx : x = c
    · subst hx
      cases h : splitChar x xs with
      | nil => exact absurd h (splitChar_ne_nil x xs)
      | cons a as =>
        simp only [splitChar, if_pos rfl]
        rw [h] at ih ⊢
        simp [joinChar, ih]
    · simp only [splitChar, if_neg hx]
      cases h : splitChar c xs with
      | nil => exact absurd h (splitChar_ne_nil c xs)
      | cons a as =>
        rw [h] at ih
        cases as with
        | nil => simpa [joinChar] using congrArg (x :: ·) ih
        | cons b bs => simpa [joinChar] using congrArg (x :: ·) ih

theorem getLast_suffix_joinChar (c : Char) (chunks : List Str) (h : chunks ≠ []) :
    (chunks.getLast?.getD []) <:+ joinChar c chunks := by
  induction chunks with
  | nil => exact absurd rfl h
  | cons a as ih =>
    cases as with
    | nil => simp [joinChar]
    | cons b bs =>
      have hsuf := ih (by simp)
      have hstep : joinChar c (b :: bs) <:+ joinChar c (a :: b :: bs) :=
        ⟨a ++ [c], by simp [joinChar]⟩
      rw [List.getLast?_cons_cons]
      exact hsuf.trans hstep

theorem getFileName_suffix (p : Str) : getFileName p <:+ p := by
  have h := getLast_suffix_joinChar '/' (splitChar '/' p) (splitChar_ne_nil '/' p)
  rw [joinChar_splitChar] at h
  simpa [getFileName] using h

theorem takeWhile_append_all {p : Char → Bool} {a b : Str}
    (ha : ∀ x ∈ a, p x = true) (hb : ∀ c, b.head? = some c → p c = false) :
    (a ++ b).takeWhile p = a := by
  induction a with
  | nil =>
    cases b with
    | nil => rfl
    | cons c cs => simp [List.takeWhile_cons, hb c rfl]
  | cons x xs ih =>
    have hx := ha x (List.mem_cons_self x xs)
    simp [List.takeWhile_cons, hx, ih (fun y hy => ha y (List.mem_cons_of_mem _ hy))]

theorem dropWhile_append_all {p : Char → Bool} {a b : Str}
    (ha : ∀ x ∈ a, p x = true) (hb : ∀ c, b.head? = some c → p c = false) :
    (a ++ b).dropWhile p = b := by
  induction a with
  | nil =>
    cases b with
    | nil => rfl
    | cons c cs => simp [List.dropWhile_cons, hb c rfl]
  | cons x xs ih =>
    have hx := ha x (List.mem_cons_self x xs)
    simp [List.dropWhile_cons, hx, ih (fun y hy => ha y (List.mem_cons_of_mem _ hy))]

/-- Splitting `a ++ sep :: x` at the first separator is unambiguous when
`a` and `b` are separator-free. -/
theorem append_sep_inj {sep : Char} {a b x y : Str}
    (ha : sep ∉ a) (hb : sep ∉ b) (h : a ++ sep :: x = b ++ sep :: y) :
    a = b ∧ x = y := by
  induction a generalizing b with
  | nil =>
    cases b with
    | nil => simpa using h
    | cons bc bcs =>
      simp only [List.nil_append, List.cons_append, List.cons.injEq] at h
      exact absurd (h.1 ▸ List.mem_cons_self bc bcs) hb
  | cons ac acs ih =>
    cases b with
    | nil =>
      simp only [List.cons_append, List.nil_append, List.cons.injEq] at h
      exact absurd (h.1.symm ▸ List.mem_cons_self ac acs) ha
    | cons bc bcs =>
      simp only [List.cons_append, List.cons.injEq] at h
      have := ih (fun hs => ha (List.mem_cons_of_mem _ hs))
        (b := bcs) (fun hs => hb (List.mem_cons_of_mem _ hs)) h.2
      exact ⟨by rw [h.1, this.1], this.2⟩

theorem mkId_inj {f : Str} {n : Nat} {t1 t2 : Str} (h : mkId f n t1 = mkId f n t2) :
    t1 = t2 := by
  unfold mkId at h
  have h2 := List.append_cancel_left h
  exact (List.cons.inj h2).2

/-! ### Values-pattern scanner lemmas -/

theorem valuesLit_eq : valuesLit = '.' :: "Values".data := rfl

theorem parseSeg_not_start {c : Char} {cs : Str} (h1 : c ≠ '.') (h2 : c ≠ '[') :
    parseSeg (c :: cs) = none := by
  unfold parseSeg
  split
  · next heq => exact absurd (List.cons.inj heq).1 h1
  · next heq => exact absurd (List.cons.inj heq).1 h2
  · rfl

theorem parseSeg_nil : parseSeg [] = none := rfl

theorem parseSeg_append {l s r : Str} (h : parseSeg l = some (s, r)) :
    s ++ r = l ∧ s ≠ [] := by
  unfold parseSeg at h
  split at h
  · next c rest =>
    split at h
    · rw [Option.some.injEq, Prod.mk.injEq] at h
      refine ⟨?_, by rw [← h.1]; simp⟩
      rw [← h.1, ← h.2]
      simp [List.takeWhile_append_dropWhile]
    · exact absurd h (by simp)
  · next rest =>
    simp only at h
    split at h
    · exact absurd h (by simp)
    · split at h
      · next rest2 heq =>
        rw [Option.some.injEq, Prod.mk.injEq] at h
        constructor
        · rw [← h.1, ← h.2]
          have hsplit := List.takeWhile_append_dropWhile (p := fun c => decide (c ≠ ']')) (l := rest)
          rw [heq] at hsplit
          simp only [List.cons_append, List.append_assoc, List.nil_append,
            List.singleton_append, List.cons.injEq, true_and]
          exact hsplit
        · rw [← h.1]
          simp
      · exact absurd h (by simp)
  · exact absurd h (by simp)

theorem segsGo_shrink {fuel : Nat} {l s r : Str} (h : segsGo fuel l = some (s, r)) :
    s ++ r = l ∧ s ≠ [] := by
  induction fuel generalizing l s r with
  | zero => exact absurd h (by simp [segsGo])
  | succ f ih =>
    unfold segsGo at h
    cases hp : parseSeg l with
    | none => simp [hp] at h
    | some p =>
      obtain ⟨s1, r1⟩ := p
      simp only [hp] at h
      cases hg : segsGo f r1 with
      | none =>
        simp only [hg, Option.some.injEq, Prod.mk.injEq] at h
        obtain ⟨hA, hB⟩ := parseSeg_append hp
        exact ⟨by rw [← h.1, ← h.2]; exact hA, by rw [← h.1]; exact hB⟩
      | some q =>
        obtain ⟨s2, r2⟩ := q
        simp only [hg, Option.some.injEq, Prod.mk.injEq] at h
        obtain ⟨hA, hB⟩ := parseSeg_append hp
        obtain ⟨hC, _⟩ := ih hg
        constructor
        · rw [← h.1, ← h.2, List.append_assoc, hC]
          exact hA
        · rw [← h.1]
          simp [hB]

theorem valuesMatch_shrink {l : Str} {a : Str × Str} {r : Str}
    (h : valuesMatch l = some (a, r)) : r.length < l.length := by
  unfold valuesMatch at h
  split at h
  · next hpre =>
    cases hg : segsGo (l.drop 7).length (l.drop 7) with
    | none => rw [hg] at h; exact absurd h (by simp)
    | some q =>
      rw [hg] at h
      obtain ⟨chain, r2⟩ := q
      rw [Option.some.injEq, Prod.mk.injEq] at h
      obtain ⟨hA, hB⟩ := segsGo_shrink hg
      have hr : r2 = r := h.2
      have hlen : r.length < (l.drop 7).length := by
        rw [← hr, ← hA]
        cases chain with
        | nil => exact absurd rfl hB
        | cons c cs => simp; omega
      calc r.length < (l.drop 7).length := hlen
        _ ≤ l.length := by simp
  · exact absurd h (by simp)

theorem scanLoop_nil {α : Type} (m : Str → Option (α × Str)) (fuel : Nat) :
    scanLoop m fuel [] = [] := by
  cases fuel <;> rfl

/-- The scan result does not depend on the fuel once the fuel covers the
input length, provided every match strictly shrinks the input. -/
theorem scanLoop_fuel {α : Type} {m : Str → Option (α × Str)}
    (hm : ∀ l a r, m l = some (a, r) → r.length < l.length) :
    ∀ f1 f2 l, l.length ≤ f1 → l.length ≤ f2 → scanLoop m f1 l = scanLoop m f2 l := by
  intro f1
  induction f1 with
  | zero =>
    intro f2 l h1 _
    have : l = [] := List.length_eq_zero.mp (Nat.le_zero.mp h1)
    rw [this, scanLoop_nil, scanLoop_nil]
  | succ f ih =>
    intro f2 l h1 h2
    cases l with
    | nil => rw [scanLoop_nil, scanLoop_nil]
    | cons c rest =>
      cases f2 with
      | zero => simp at h2
      | succ f2a =>
        unfold scanLoop
        cases hmc : m (c :: rest) with
        | none =>
          simp only [hmc]
          exact ih f2a rest (by simp at h1; omega) (by simp at h2; omega)
        | some p =>
          obtain ⟨a, r⟩ := p
          simp only [hmc]
          have hlt := hm _ _ _ hmc
          simp only [List.length_cons] at hlt h1 h2
          have hr1 : r.length ≤ f := by omega
          have hr2 : r.length ≤ f2a := by omega
          rw [ih f2a r hr1 hr2]

theorem chainStr_cons (s : Seg) (ss : List Seg) :
    chainStr (s :: ss) = Seg.render s ++ chainStr ss := by
  simp [chainStr]

theorem chainStr_length (segs : List Seg) : segs.length ≤ (chainStr segs).length := by
  induction segs with
  | nil => simp [chainStr]
  | cons s ss ih =>
    rw [chainStr_cons]
    have h1 : 1 ≤ (Seg.render s).length := by cases s <;> simp [Seg.render]
    simp only [List.length_append, List.length_cons]
    omega

theorem parseSeg_field {n tail : Str} (hv : Seg.valid (.field n) = true)
    (ht : ∀ c, tail.head? = some c → isIdentChar c = false) :
    parseSeg (Seg.render (.field n) ++ tail) = some (Seg.render (.field n), tail) := by
  cases n with
  | nil => simp [Seg.valid] at hv
  | cons c0 cs =>
    simp only [Seg.valid, Bool.and_eq_true, List.all_eq_true] at hv
    simp only [Seg.render, List.cons_append]
    have hred : parseSeg ('.' :: c0 :: (cs ++ tail)) =
        if isIdentStart c0 then
          some ('.' :: c0 :: (cs ++ tail).takeWhile isIdentChar,
            (cs ++ tail).dropWhile isIdentChar)
        else none := rfl
    rw [hred, if_pos hv.1, takeWhile_append_all hv.2 ht, dropWhile_append_all hv.2 ht]

theorem parseSeg_index {i tail : Str} (hv : Seg.valid (.index i) = true) :
    parseSeg (Seg.render (.index i) ++ tail) = some (Seg.render (.index i), tail) := by
  simp only [Seg.valid, Bool.and_eq_true, Bool.not_eq_true', List.all_eq_true] at hv
  simp only [Seg.render, List.cons_append, List.append_assoc, List.singleton_append]
  show parseSeg ('[' :: (i ++ ']' :: tail)) = _
  unfold parseSeg
  have htk : (i ++ ']' :: tail).takeWhile (fun c => decide (c ≠ ']')) = i :=
    takeWhile_append_all (fun x hx => by simpa using hv.2 x hx) (fun c hc => by
      simp only [List.head?_cons, Option.some.injEq] at hc
      simp [← hc])
  have hdw : (i ++ ']' :: tail).dropWhile (fun c => decide (c ≠ ']')) = ']' :: tail :=
    dropWhile_append_all (fun x hx => by simpa using hv.2 x hx) (fun c hc => by
      simp only [List.head?_cons, Option.some.injEq] at hc
      simp [← hc])
  simp only [htk, hdw]
  have : i.isEmpty = false := by
    cases i with
    | nil => simp [List.isEmpty] at hv
    | cons a as => rfl
  simp [this]

theorem chainStr_head_not_ident (s : Seg) (ss : List Seg) (rest : Str) :
    ∀ c, (chainStr (s :: ss) ++ rest).head? = some c → isIdentChar c = false := by
  intro c hc
  cases s with
  | field n =>
    rw [chainStr_cons] at hc
    simp only [Seg.render, List.cons_append, List.append_assoc, List.head?_cons,
      Option.some.injEq] at hc
    rw [← hc]
    decide
  | index i =>
    rw [chainStr_cons] at hc
    simp only [Seg.render, List.cons_append, List.append_assoc, List.head?_cons,
      Option.some.injEq] at hc
    rw [← hc]
    decide

theorem stopperOk_not_ident {rest : Str} (h : stopperOk rest = true) :
    ∀ c, rest.head? = some c → isIdentChar c = false := by
  intro c hc
  cases rest with
  | nil => simp at hc
  | cons r rs =>
    simp only [List.head?_cons, Option.some.injEq] at hc
    simp only [stopperOk, Bool.and_eq_true, Bool.not_eq_true'] at h
    rw [← hc]
    exact h.1.1

theorem segsGo_stopper {rest : Str} (h : stopperOk rest = true) (f : Nat) :
    segsGo f rest = none := by
  cases f with
  | zero => rfl
  | succ f2 =>
    unfold segsGo
    cases rest with
    | nil => rw [parseSeg_nil]
    | cons c cs =>
      simp only [stopperOk, Bool.and_eq_true, Bool.not_eq_true', decide_eq_true_eq] at h
      rw [parseSeg_not_start h.1.2 h.2]

theorem segsGo_chain : ∀ (segs : List Seg) (rest : Str) (fuel : Nat),
    (∀ s ∈ segs, Seg.valid s = true) → segs ≠ [] → stopperOk rest = true →
    segs.length ≤ fuel →
    segsGo fuel (chainStr segs ++ rest) = some (chainStr segs, rest) := by
  intro segs
  induction segs with
  | nil => intro rest fuel _ hne _ _; exact absurd rfl hne
  | cons s ss ih =>
    intro rest fuel hok hne hstop hfuel
    cases fuel with
    | zero => simp at hfuel
    | succ f =>
      unfold segsGo
      rw [chainStr_cons, List.append_assoc]
      have hbound : ∀ c, (chainStr ss ++ rest).head? = some c → isIdentChar c = false := by
        cases ss with
        | nil =>
          intro c hc
          rw [show chainStr ([] : List Seg) = [] from rfl, List.nil_append] at hc
          exact stopperOk_not_ident hstop c hc
        | cons s2 ss2 => exact chainStr_head_not_ident s2 ss2 rest
      have hseg : parseSeg (Seg.render s ++ (chainStr ss ++ rest)) =
          some (Seg.render s, chainStr ss ++ rest) := by
        cases s with
        | field n => exact parseSeg_field (hok _ (List.mem_cons_self _ _)) hbound
        | index i => exact parseSeg_index (hok _ (List.mem_cons_self _ _))
      simp only [hseg]
      cases ss with
      | nil =>
        rw [show chainStr ([] : List Seg) = [] from rfl, List.nil_append,
          segsGo_stopper hstop f]
        simp [chainStr_cons, chainStr]
      | cons s2 ss2 =>
        rw [ih rest f (fun x hx => hok x (List.mem_cons_of_mem _ hx)) (by simp) hstop
          (by simp at hfuel ⊢; omega)]

theorem valuesMatch_chain {segs : List Seg} {rest : Str}
    (hok : chainOk segs = true) (hstop : stopperOk rest = true) :
    valuesMatch (valuesLit ++ (chainStr segs ++ rest)) =
      some ((valuesLit ++ chainStr segs, stripDot (chainStr segs)), rest) := by
  simp only [chainOk, Bool.and_eq_true, Bool.not_eq_true', List.all_eq_true] at hok
  unfold valuesMatch
  have hpre : List.isPrefixOf valuesLit (valuesLit ++ (chainStr segs ++ rest)) = true := by
    rw [List.isPrefixOf_iff_prefix]
    exact List.prefix_append _ _
  rw [if_pos hpre]
  have hdrop : (valuesLit ++ (chainStr segs ++ rest)).drop 7 = chainStr segs ++ rest := by
    have hl : valuesLit.length = 7 := rfl
    rw [← hl, List.drop_left]
  rw [hdrop]
  have hne : segs ≠ [] := by
    cases segs with
    | nil => simp [List.isEmpty] at hok
    | cons a b => simp
  have hfuel : segs.length ≤ (chainStr segs ++ rest).length := by
    have := chainStr_length segs
    simp only [List.length_append]
    omega
  rw [segsGo_chain segs rest _ hok.2 hne hstop hfuel]

theorem valuesMatch_not_dot {c : Char} {t : Str} (hc : c ≠ '.') :
    valuesMatch (c :: t) = none := by
  unfold valuesMatch
  rw [if_neg]
  rw [List.isPrefixOf_iff_prefix]
  intro hp
  rw [valuesLit_eq] at hp
  obtain ⟨u, hu⟩ := hp
  rw [List.cons_append] at hu
  exact hc ((List.cons.inj hu).1).symm

theorem scanLoop_cons {α : Type} (m : Str → Option (α × Str)) (f : Nat) (c : Char) (t : Str) :
    scanLoop m (f + 1) (c :: t) =
      match m (c :: t) with
      | some (a, r) => a :: scanLoop m f r
      | none => scanLoop m f t := rfl

theorem valuesScan_nil : valuesScan [] = [] := rfl

theorem valuesScan_cons_skip {c : Char} {t : Str} (hc : c ≠ '.') :
    valuesScan (c :: t) = valuesScan t := by
  show scanLoop valuesMatch (t.length + 1) (c :: t) = _
  rw [scanLoop_cons, valuesMatch_not_dot hc]
  rfl

theorem valuesScan_skip {a : Str} (ha : ∀ c ∈ a, c ≠ '.') (b : Str) :
    valuesScan (a ++ b) = valuesScan b := by
  induction a with
  | nil => rfl
  | cons c a2 ih =>
    rw [List.cons_append, valuesScan_cons_skip (ha c (List.mem_cons_self _ _)),
      ih (fun x hx => ha x (List.mem_cons_of_mem _ hx))]

theorem valuesScan_no_dot {a : Str} (ha : ∀ c ∈ a, c ≠ '.') : valuesScan a = [] := by
  have := valuesScan_skip ha []
  rwa [List.append_nil] at this

theorem valuesScan_match {segs : List Seg} {rest : Str}
    (hok : chainOk segs = true) (hstop : stopperOk rest = true) :
    valuesScan (valuesLit ++ (chainStr segs ++ rest)) =
      (valuesLit ++ chainStr segs, stripDot (chainStr segs)) :: valuesScan rest := by
  have hcons : valuesLit ++ (chainStr segs ++ rest) =
      '.' :: ("Values".data ++ (chainStr segs ++ rest)) := by
    rw [valuesLit_eq, List.cons_append]
  unfold valuesScan
  rw [hcons]
  show scanLoop valuesMatch (("Values".data ++ (chainStr segs ++ rest)).length + 1)
      ('.' :: ("Values".data ++ (chainStr segs ++ rest))) = _
  rw [scanLoop_cons, ← hcons, valuesMatch_chain hok hstop]
  simp only [List.cons.injEq, true_and]
  exact scanLoop_fuel (fun l a r h => valuesMatch_shrink h) _ _ rest
    (by simp only [List.length_append]; omega) (le_refl _)

/-! ### Per-line extraction lemmas -/

theorem filter_values_lineReferences (line f : Str) (n : Nat) :
    (lineReferences line f n).filter (fun r => r.type == ReferenceType.values) =
      extractValuesReferences line f n := by
  unfold lineReferences
  rw [List.filter_append, List.filter_append, List.filter_append, List.filter_append,
    List.filter_append]
  have hv : (extractValuesReferences line f n).filter
      (fun r => r.type == ReferenceType.values) = extractValuesReferences line f n := by
    apply List.filter_eq_self.mpr
    intro r hr
    unfold extractValuesReferences at hr
    obtain ⟨m, _, hm⟩ := List.mem_map.mp hr
    rw [← hm]
    rfl
  have hnil : ∀ (l : List Reference), (∀ r ∈ l, r.type ≠ ReferenceType.values) →
      l.filter (fun r => r.type == ReferenceType.values) = [] := by
    intro l hl
    apply List.filter_eq_nil_iff.mpr
    intro r hr
    simp [hl r hr]
  have h1 : (extractIncludeReferences line f n).filter
      (fun r => r.type == ReferenceType.values) = [] := by
    apply hnil
    intro r hr
    unfold extractIncludeReferences at hr
    rcases List.mem_append.mp hr with h | h <;>
      · obtain ⟨m, _, hm⟩ := List.mem_map.mp h
        rw [← hm]
        simp
  have h2 : (extractChartReferences line f n).filter
      (fun r => r.type == ReferenceType.values) = [] := by
    apply hnil
    intro r hr
    unfold extractChartReferences at hr
    obtain ⟨m, _, hm⟩ := List.mem_map.mp hr
    rw [← hm]
    simp
  have h3 : (extractReleaseReferences line f n).filter
      (fun r => r.type == ReferenceType.values) = [] := by
    apply hnil
    intro r hr
    unfold extractReleaseReferences at hr
    obtain ⟨m, _, hm⟩ := List.mem_map.mp hr
    rw [← hm]
    simp
  have h4 : (extractFilesReferences line f n).filter
      (fun r => r.type == ReferenceType.values) = [] := by
    apply hnil
    intro r hr
    unfold extractFilesReferences at hr
    obtain ⟨m, _, hm⟩ := List.mem_map.mp hr
    rw [← hm]
    simp
  have h5 : (extractCapabilitiesReferences line f n).filter
      (fun r => r.type == ReferenceType.values) = [] := by
    apply hnil
    intro r hr
    unfold extractCapabilitiesReferences at hr
    obtain ⟨m, _, hm⟩ := List.mem_map.mp hr
    rw [← hm]
    simp
  rw [hv, h1, h2, h3, h4, h5]
  simp

theorem valuesScan_bare {post : Str} (hpost : ∀ c ∈ post, c ≠ '.')
    (hstop : stopperOk post = true) : valuesScan (valuesLit ++ post) = [] := by
  have hcons : valuesLit ++ post = '.' :: ("Values".data ++ post) := by
    rw [valuesLit_eq, List.cons_append]
  have hvm : valuesMatch (valuesLit ++ post) = none := by
    unfold valuesMatch
    rw [if_pos (by rw [List.isPrefixOf_iff_prefix]; exact List.prefix_append _ _)]
    have hdrop : (valuesLit ++ post).drop 7 = post := by
      have hl : valuesLit.length = 7 := rfl
      rw [← hl, List.drop_left]
    rw [hdrop, segsGo_stopper hstop]
  unfold valuesScan
  rw [hcons]
  show scanLoop valuesMatch (("Values".data ++ post).length + 1)
      ('.' :: ("Values".data ++ post)) = _
  rw [scanLoop_cons, ← hcons, hvm]
  show scanLoop valuesMatch ("Values".data ++ post).length ("Values".data ++ post) = []
  show valuesScan ("Values".data ++ post) = []
  rw [valuesScan_skip (by decide) post]
  exact valuesScan_no_dot hpost

theorem extractValues_line (f linePre linePost : Str) (n : Nat) (segs : List Seg)
    (hpre : ∀ c ∈ linePre, c ≠ '.') (hok : chainOk segs = true)
    (hpost : ∀ c ∈ linePost, c ≠ '.') (hstop : stopperOk linePost = true) :
    extractValuesReferences (c6Line linePre linePost segs) f n = [valuesRefOf f n segs] := by
  unfold extractValuesReferences c6Line
  rw [valuesScan_skip hpre, valuesScan_match hok hstop, valuesScan_no_dot hpost]
  rfl

theorem c6_lines (f linePre linePost : Str)
    (hpre : ∀ c ∈ linePre, c ≠ '.') (hpost : ∀ c ∈ linePost, c ≠ '.')
    (hstop : stopperOk linePost = true) :
    ∀ (items : List (List Seg)) (k : Nat), (∀ segs ∈ items, chainOk segs = true) →
    ((items.map (c6Line linePre linePost)).enumFrom k).flatMap
        (fun p => extractValuesReferences p.2 f (p.1 + 1)) =
      (items.enumFrom k).map (fun p => valuesRefOf f (p.1 + 1) p.2) := by
  intro items
  induction items with
  | nil => intro k _; rfl
  | cons i is ih =>
    intro k hok
    simp only [List.map_cons, List.enumFrom_cons, List.flatMap_cons]
    rw [extractValues_line f linePre linePost (k + 1) i hpre
      (hok i (List.mem_cons_self _ _)) hpost hstop]
    rw [ih (k + 1) (fun x hx => hok x (List.mem_cons_of_mem _ hx))]
    simp

theorem splitChar_joinChar (c : Char) (ls : List Str) (hne : ls ≠ [])
    (h : ∀ l ∈ ls, c ∉ l) : splitChar c (joinChar c ls) = ls := by
  induction ls with
  | nil => exact absurd rfl hne
  | cons a as ih =>
    cases as with
    | nil =>
      show splitChar c (joinChar c [a]) = [a]
      rw [show joinChar c [a] = a from rfl]
      exact splitChar_no_sep c a (h a (List.mem_cons_self _ _))
    | cons b bs =>
      rw [show joinChar c (a :: b :: bs) = a ++ c :: joinChar c (b :: bs) from rfl]
      rw [splitChar_append_cons, splitChar_no_sep c a (h a (List.mem_cons_self _ _)),
        ih (by simp) (fun l hl => h l (List.mem_cons_of_mem _ hl))]
      rfl

/-- Claim C6: template text whose lines each hold one `.Values<chain>`
occurrence yields exactly one `values` reference per occurrence, with
the 1-based physical line number, the exact matched substring as the
expression, and the chain minus its leading dot (brackets and inner
dots verbatim) as the target path; and a bare `.Values` with no
following segment yields no reference. -/
theorem c6_values_extraction (items : List (List Seg)) (f linePre linePost : Str)
    (hitems : ∀ segs ∈ items, chainOk segs = true ∧ ('\n') ∉ chainStr segs)
    (hpre : ∀ c ∈ linePre, c ≠ '.' ∧ c ≠ '\n')
    (hpost : ∀ c ∈ linePost, c ≠ '.' ∧ c ≠ '\n')
    (hstop : stopperOk linePost = true) :
    ((extractReferences (joinChar '\n' (items.map (c6Line linePre linePost))) f).filter
        (fun r => r.type == ReferenceType.values) =
      items.enum.map (fun p => valuesRefOf f (p.1 + 1) p.2)) ∧
    (∀ (pre post f2 : Str) (n : Nat), (∀ c ∈ pre, c ≠ '.') → (∀ c ∈ post, c ≠ '.') →
      stopperOk post = true →
      extractValuesReferences (pre ++ (valuesLit ++ post)) f2 n = []) := by
  constructor
  · cases items with
    | nil => rfl
    | cons i0 irest =>
      have hlines : splitChar '\n' (joinChar '\n'
          ((i0 :: irest).map (c6Line linePre linePost))) =
          (i0 :: irest).map (c6Line linePre linePost) := by
        apply splitChar_joinChar _ _ (by simp)
        intro l hl
        obtain ⟨segs, hsegs, hval⟩ := List.mem_map.mp hl
        rw [← hval]
        unfold c6Line
        intro hmem
        rcases List.mem_append.mp hmem with hm | hm
        · exact (hpre _ hm).2 rfl
        rcases List.mem_append.mp hm with hm2 | hm2
        · revert hm2
          decide
        rcases List.mem_append.mp hm2 with hm3 | hm3
        · exact (hitems segs hsegs).2 hm3
        · exact (hpost _ hm3).2 rfl
      unfold extractReferences
      rw [hlines]
      rw [List.filter_flatMap]
      simp only [filter_values_lineReferences]
      exact c6_lines f linePre linePost (fun c hc => (hpre c hc).1)
        (fun c hc => (hpost c hc).1) hstop (i0 :: irest) 0
        (fun segs hs => (hitems segs hs).1)
  · intro pre post f2 n hp1 hp2 hs
    unfold extractValuesReferences
    rw [valuesScan_skip hp1, valuesScan_bare hp2 hs]
    rfl

/-- Witness for C6 at a concrete two-line template with paths `a` and
`ab[0]`. -/
theorem c6_values_extraction_witness :
    ((∀ segs ∈ [[Seg.field ('a' :: [])], [Seg.field ('a' :: 'b' :: []), Seg.index ('0' :: [])]],
        chainOk segs = true ∧ ('\n') ∉ chainStr segs) ∧
      (∀ c ∈ ("replicas: ".data : Str), c ≠ '.' ∧ c ≠ '\n') ∧
      (∀ c ∈ (" x".data : Str), c ≠ '.' ∧ c ≠ '\n') ∧
      stopperOk (" x".data) = true) ∧
    (((extractReferences (joinChar '\n'
          ([[Seg.field ('a' :: [])], [Seg.field ('a' :: 'b' :: []), Seg.index ('0' :: [])]].map
            (c6Line ("replicas: ".data) (" x".data)))) ("t.yaml".data)).filter
        (fun r => r.type == ReferenceType.values) =
      [[Seg.field ('a' :: [])], [Seg.field ('a' :: 'b' :: []), Seg.index ('0' :: [])]].enum.map
        (fun p => valuesRefOf ("t.yaml".data) (p.1 + 1) p.2)) ∧
    (∀ (pre post f2 : Str) (n : Nat), (∀ c ∈ pre, c ≠ '.') → (∀ c ∈ post, c ≠ '.') →
      stopperOk post = true →
      extractValuesReferences (pre ++ (valuesLit ++ post)) f2 n = [])) :=
  ⟨⟨by decide, by decide, by decide, by decide⟩,
    c6_values_extraction _ _ _ _ (by decide) (by decide) (by decide) (by decide)⟩

/-! ### Reference-id lemmas (C1) -/

theorem tagOfType_colonfree (t : ReferenceType) : ':' ∉ tagOfType t := by
  cases t <;> decide

theorem tagOfType_inj {t1 t2 : ReferenceType} (h : tagOfType t1 = tagOfType t2) : t1 = t2 := by
  cases t1 <;> cases t2 <;> first | rfl | exact absurd h (by decide)

/-- Every reference produced from one line has id
`f:n:<tag>:<key>` where `<tag>` names its type. -/
theorem lineReferences_id_shape {line f : Str} {n : Nat} {r : Reference}
    (h : r ∈ lineReferences line f n) :
    ∃ k, r.id = mkId f n (tagOfType r.type ++ ':' :: k) := by
  unfold lineReferences at h
  rcases List.mem_append.mp h with h | h5
  rcases List.mem_append.mp h with h | h4
  rcases List.mem_append.mp h with h | h3
  rcases List.mem_append.mp h with h | h2
  rcases List.mem_append.mp h with h0 | h1
  · obtain ⟨m, _, hm⟩ := List.mem_map.mp h0
    exact ⟨m.2, by rw [← hm]; rfl⟩
  · unfold extractIncludeReferences at h1
    rcases List.mem_append.mp h1 with ha | hb
    · obtain ⟨m, _, hm⟩ := List.mem_map.mp ha
      exact ⟨m.2, by rw [← hm]; rfl⟩
    · obtain ⟨m, _, hm⟩ := List.mem_map.mp hb
      exact ⟨m.2, by rw [← hm]; rfl⟩
  · obtain ⟨m, _, hm⟩ := List.mem_map.mp h2
    exact ⟨m.2, by rw [← hm]; rfl⟩
  · obtain ⟨m, _, hm⟩ := List.mem_map.mp h3
    exact ⟨m.2, by rw [← hm]; rfl⟩
  · obtain ⟨m, _, hm⟩ := List.mem_map.mp h4
    refine ⟨m.2.1 ++ ':' :: m.2.2, ?_⟩
    rw [← hm]
    show mkId f n ("files".data ++ ':' :: m.2.1 ++ ':' :: m.2.2) =
      mkId f n ("files".data ++ ':' :: (m.2.1 ++ ':' :: m.2.2))
    rw [List.append_assoc]
    rfl
  · obtain ⟨m, _, hm⟩ := List.mem_map.mp h5
    exact ⟨m.2, by rw [← hm]; rfl⟩

theorem sameline_id_type {line f : Str} {n : Nat} {r1 r2 : Reference}
    (h1 : r1 ∈ lineReferences line f n) (h2 : r2 ∈ lineReferences line f n)
    (hid : r1.id = r2.id) : r1.type = r2.type := by
  obtain ⟨k1, e1⟩ := lineReferences_id_shape h1
  obtain ⟨k2, e2⟩ := lineReferences_id_shape h2
  rw [e1, e2] at hid
  have h3 := mkId_inj hid
  exact tagOfType_inj (append_sep_inj (tagOfType_colonfree r1.type)
    (tagOfType_colonfree r2.type) h3).1

theorem values_id_iff_path {line f : Str} {n : Nat} {r1 r2 : Reference}
    (h1 : r1 ∈ extractValuesReferences line f n)
    (h2 : r2 ∈ extractValuesReferences line f n) :
    r1.id = r2.id ↔ r1.target.path = r2.target.path := by
  unfold extractValuesReferences at h1 h2
  obtain ⟨m1, _, hm1⟩ := List.mem_map.mp h1
  obtain ⟨m2, _, hm2⟩ := List.mem_map.mp h2
  rw [← hm1, ← hm2]
  show mkId f n ("values".data ++ ':' :: m1.2) = mkId f n ("values".data ++ ':' :: m2.2) ↔
    m1.2 = m2.2
  constructor
  · intro h
    have h3 := mkId_inj h
    exact (append_sep_inj (by decide) (by decide) h3).2
  · intro h
    rw [h]

/-- Counterexample to C1: two identical `.Values.a.b` occurrences on one
line produce two references, but their ids are EQUAL (the id carries no
occurrence counter), contradicting "distinct `id`s". -/
theorem c1_counterexample :
    (extractReferences ("a: .Values.a.b .Values.a.b".data) ("t.yaml".data)).map
        Reference.id =
      [("t.yaml:1:values:a.b".data : Str), ("t.yaml:1:values:a.b".data : Str)] ∧
    (extractReferences ("a: .Values.a.b .Values.a.b".data) ("t.yaml".data)).map
        (fun r => r.target.path) =
      [("a.b".data : Str), ("a.b".data : Str)] := by
  constructor <;> decide

/-- Claim C1 (amended): two occurrences of the same values expression on
one line each produce their own Reference, but those references share
ONE id; the id built from `(filePath, lineNum, type, key)` distinguishes
references from the same line exactly up to type and key — same-line
references of different types never share an id, and two same-line
`values` references share an id iff they have the same target path. -/
theorem c1_id_discrimination :
    ((extractReferences ("a: .Values.a.b .Values.a.b".data) ("t.yaml".data)).map
        Reference.id =
      [("t.yaml:1:values:a.b".data : Str), ("t.yaml:1:values:a.b".data : Str)]) ∧
    (∀ (line f : Str) (n : Nat) (r1 r2 : Reference), r1 ∈ lineReferences line f n →
      r2 ∈ lineReferences line f n → r1.id = r2.id → r1.type = r2.type) ∧
    (∀ (line f : Str) (n : Nat) (r1 r2 : Reference),
      r1 ∈ extractValuesReferences line f n → r2 ∈ extractValuesReferences line f n →
      (r1.id = r2.id ↔ r1.target.path = r2.target.path)) :=
  ⟨by decide,
    fun _ _ _ _ _ h1 h2 hid => sameline_id_type h1 h2 hid,
    fun _ _ _ _ _ h1 h2 => values_id_iff_path h1 h2⟩

/-- Witness for C1's amended statement at two concrete same-line
references with different paths. -/
theorem c1_id_discrimination_witness :
    (valuesRefOf ("t.yaml".data) 1 [Seg.field ('a' :: [])] ∈
        extractValuesReferences ("x: .Values.a .Values.b".data) ("t.yaml".data) 1 ∧
      valuesRefOf ("t.yaml".data) 1 [Seg.field ('b' :: [])] ∈
        extractValuesReferences ("x: .Values.a .Values.b".data) ("t.yaml".data) 1 ∧
      valuesRefOf ("t.yaml".data) 1 [Seg.field ('a' :: [])] ∈
        lineReferences ("x: .Values.a .Values.b".data) ("t.yaml".data) 1) ∧
    ((valuesRefOf ("t.yaml".data) 1 [Seg.field ('a' :: [])]).id =
        (valuesRefOf ("t.yaml".data) 1 [Seg.field ('b' :: [])]).id ↔
      (valuesRefOf ("t.yaml".data) 1 [Seg.field ('a' :: [])]).target.path =
        (valuesRefOf ("t.yaml".data) 1 [Seg.field ('b' :: [])]).target.path) ∧
    (valuesRefOf ("t.yaml".data) 1 [Seg.field ('a' :: [])]).type =
      (valuesRefOf ("t.yaml".data) 1 [Seg.field ('a' :: [])]).type :=
  ⟨⟨by decide, by decide, by decide⟩,
    c1_id_discrimination.2.2 ("x: .Values.a .Values.b".data) ("t.yaml".data) 1 _ _
      (by decide) (by decide),
    c1_id_discrimination.2.1 ("x: .Values.a .Values.b".data) ("t.yaml".data) 1 _ _
      (by decide) (by decide) rfl⟩

/-! ### Relevance filter (C4) -/

/-- Claim C4 is contradicted by the code: `isRelevantFile` ADMITS a
hidden file under `templates/` and subchart files under `charts/`,
because the `templates/` and filename admission checks run before the
hidden-file and `charts/` exclusion checks, and every path reaching
those exclusion checks falls through to `return false` anyway (the
exclusions are dead code).  Evaluations at the failing inputs: -/
theorem c4_isRelevantFile_eval :
    isRelevantFile ("templates/.hidden.yaml".data) = true ∧
    isRelevantFile ("charts/sub/templates/x.yaml".data) = true ∧
    isRelevantFile ("charts/sub/values.yaml".data) = true ∧
    isRelevantFile (".helmignore".data) = false ∧
    isRelevantFile ("foo.txt".data) = false := by
  refine ⟨?_, ?_, ?_, ?_, ?_⟩ <;> decide

/-! ### Ingestion validation (C8) -/

/-- Counterexample to C8: a path whose filename is `mychart.yaml` (not
equal to `chart.yaml`/`chart.yml`) is accepted, because the code tests
`path.toLowerCase().endsWith('chart.yaml')` — a suffix test on the whole
path, not filename equality. -/
theorem c8_counterexample :
    hasChartYaml [("mychart.yaml".data : Str)] = true ∧
    specFilenameIsChart ("mychart.yaml".data) = false := by
  constructor <;> decide

/-- Claim C8 (amended): the validation accepts a dropped mapping iff at
least one ingested path, lowercased, ENDS WITH `chart.yaml` or
`chart.yml`.  In particular every mapping containing a file whose
filename case-insensitively equals `chart.yaml`/`chart.yml` is
accepted, but paths with other filenames that merely end in those
strings are accepted too. -/
theorem c8_validation :
    (∀ paths : List Str, (∃ p ∈ paths, specFilenameIsChart p = true) →
      hasChartYaml paths = true) ∧
    (∀ paths : List Str, hasChartYaml paths = true ↔ ∃ p ∈ paths,
      (List.isSuffixOf ("chart.yaml".data) (toLowerStr p) ||
        List.isSuffixOf ("chart.yml".data) (toLowerStr p)) = true) := by
  constructor
  · intro paths ⟨p, hp, hspec⟩
    unfold hasChartYaml
    rw [List.any_eq_true]
    refine ⟨p, hp, ?_⟩
    have hsuf : toLowerStr (getFileName p) <:+ toLowerStr p :=
      List.IsSuffix.map Char.toLower (getFileName_suffix p)
    unfold specFilenameIsChart at hspec
    rw [Bool.or_eq_true, beq_iff_eq, beq_iff_eq] at hspec
    rw [Bool.or_eq_true]
    rcases hspec with h | h
    · left
      rw [List.isSuffixOf_iff_suffix]
      rw [h] at hsuf
      exact hsuf
    · right
      rw [List.isSuffixOf_iff_suffix]
      rw [h] at hsuf
      exact hsuf
  · intro paths
    unfold hasChartYaml
    rw [List.any_eq_true]

/-- Witness for C8's amended statement at a concrete accepted mapping. -/
theorem c8_validation_witness :
    (∃ p ∈ [("sub/Chart.Yaml".data : Str)], specFilenameIsChart p = true) ∧
    hasChartYaml [("sub/Chart.Yaml".data : Str)] = true ∧
    (hasChartYaml [("sub/Chart.Yaml".data : Str)] = true ↔
      ∃ p ∈ [("sub/Chart.Yaml".data : Str)],
        (List.isSuffixOf ("chart.yaml".data) (toLowerStr p) ||
          List.isSuffixOf ("chart.yml".data) (toLowerStr p)) = true) :=
  ⟨by decide, c8_validation.1 _ (by decide), c8_validation.2 _⟩

/-! ### Flatten/lookup round trip (C5) -/

theorem keysOk_mem {ks : List Str} (h : keysOk ks = true) {k : Str} (hk : k ∈ ks) :
    k ≠ [] ∧ '.' ∉ k := by
  induction ks with
  | nil => simp at hk
  | cons k0 rest ih =>
    unfold keysOk at h
    rw [Bool.and_eq_true, Bool.and_eq_true, Bool.and_eq_true] at h
    rcases List.mem_cons.mp hk with h0 | h0
    · subst h0
      constructor
      · intro he
        rw [he] at h
        simp [List.isEmpty] at h
      · intro hdot
        have hc := h.1.1.2
        rw [Bool.not_eq_true'] at hc
        rw [← List.elem_iff] at hdot
        rw [show List.contains k '.' = List.elem '.' k from rfl] at hc
        rw [hc] at hdot
        exact Bool.noConfusion hdot
    · exact ih h.2 h0

theorem mapGet_of_keysOk {kvs : List (Str × YVal)} {k : Str} {v : YVal}
    (hk : keysOk (kvs.map Prod.fst) = true) (hm : (k, v) ∈ kvs) : mapGet kvs k = some v := by
  induction kvs with
  | nil => simp at hm
  | cons pair rest ih =>
    obtain ⟨k2, v2⟩ := pair
    rw [List.map_cons] at hk
    unfold keysOk at hk
    rw [Bool.and_eq_true, Bool.and_eq_true, Bool.and_eq_true] at hk
    rcases List.mem_cons.mp hm with h0 | h0
    · rw [Prod.mk.injEq] at h0
      unfold mapGet
      rw [if_pos h0.1.symm, h0.2]
    · unfold mapGet
      by_cases he : k2 = k
      · exfalso
        have hmem : k ∈ rest.map Prod.fst := List.mem_map.mpr ⟨(k, v), h0, rfl⟩
        have hnone := hk.1.2
        rw [Bool.not_eq_true'] at hnone
        rw [List.any_eq_false] at hnone
        have := hnone k hmem
        rw [he] at this
        simp at this
      · rw [if_neg he]
        exact ih hk.2 h0

/-- Main lemma for the amended round trip: on a clean subtree and a
nonempty prefix, every flattened entry's path splits into the prefix's
parts followed by a relative part list that looks the entry's value up
in the subtree. -/
theorem flatten_lookup_aux : ∀ (N : Nat) (v : YVal), sizeOf v ≤ N → cleanVal v = true →
    ∀ (p : Str), p ≠ [] → ∀ e ∈ flattenValues v p,
    ∃ rs, splitChar '.' e.path = splitChar '.' p ++ rs ∧
      lookupParts v rs = some e.value := by
  intro N
  induction N with
  | zero =>
    intro v hv
    exfalso
    cases v <;> simp at hv
  | succ N ih =>
    intro v hsize hclean p hp e he
    cases v with
    | null => simp [flattenValues] at he
    | bool b =>
      simp only [flattenValues, List.mem_singleton] at he
      subst he
      exact ⟨[], by simp, rfl⟩
    | num n =>
      simp only [flattenValues, List.mem_singleton] at he
      subst he
      exact ⟨[], by simp, rfl⟩
    | str t =>
      simp only [flattenValues, List.mem_singleton] at he
      subst he
      exact ⟨[], by simp, rfl⟩
    | arr xs => simp [cleanVal] at hclean
    | obj kvs =>
      unfold cleanVal at hclean
      rw [Bool.and_eq_true] at hclean
      have hpe : p.isEmpty = false := by
        cases p with
        | nil => exact absurd rfl hp
        | cons a as => rfl
      rw [show flattenValues (YVal.obj kvs) p =
        (if p.isEmpty then [] else
          [⟨p, ".Values.".data ++ p, YVal.obj kvs, "object".data⟩]) ++
          flattenFields kvs p from rfl, hpe] at he
      simp only [if_false, Bool.false_eq_true, List.cons_append, List.nil_append] at he
      rcases List.mem_cons.mp he with h0 | h0
      · subst h0
        exact ⟨[], by simp, rfl⟩
      · -- entry comes from some field; inner induction over the field list
        have hsub : ∀ (kvs0 : List (Str × YVal)), (∀ x ∈ kvs0, x ∈ kvs) →
            cleanFieldsList kvs0 = true →
            ∀ e2 ∈ flattenFields kvs0 p,
            ∃ rs, splitChar '.' e2.path = splitChar '.' p ++ rs ∧
              lookupParts (YVal.obj kvs) rs = some e2.value := by
          intro kvs0
          induction kvs0 with
          | nil => intro _ _ e2 he2; simp [flattenFields] at he2
          | cons pair rest ih2 =>
            obtain ⟨k, child⟩ := pair
            intro hmem hcf e2 he2
            unfold cleanFieldsList at hcf
            rw [Bool.and_eq_true] at hcf
            rw [show flattenFields ((k, child) :: rest) p =
              flattenValues child (if p.isEmpty then k else p ++ '.' :: k) ++
                flattenFields rest p from rfl, hpe] at he2
            simp only [if_false, Bool.false_eq_true] at he2
            rcases List.mem_append.mp he2 with h1 | h1
            · have hkmem : k ∈ kvs.map Prod.fst :=
                List.mem_map.mpr ⟨(k, child), hmem _ (List.mem_cons_self _ _), rfl⟩
              obtain ⟨hkne, hkdot⟩ := keysOk_mem hclean.1 hkmem
              have hchildsize : sizeOf child ≤ N := by
                have h2 := List.sizeOf_lt_of_mem (hmem _ (List.mem_cons_self _ _))
                have h3 : sizeOf (YVal.obj kvs) = 1 + sizeOf kvs := by simp
                have h4 : sizeOf ((k, child) : Str × YVal) = 1 + sizeOf k + sizeOf child := by
                  simp
                omega
              obtain ⟨rs, hsplit, hlook⟩ := ih child hchildsize hcf.1
                (p ++ '.' :: k) (by simp) e2 h1
              refine ⟨k :: rs, ?_, ?_⟩
              · rw [hsplit, splitChar_append_cons, splitChar_no_sep '.' k hkdot]
                simp
              · rw [show lookupParts (YVal.obj kvs) (k :: rs) =
                  (match mapGet kvs k with
                    | some v => lookupParts v rs
                    | none => none) from rfl]
                rw [mapGet_of_keysOk hclean.1 (hmem _ (List.mem_cons_self _ _))]
                exact hlook
            · exact ih2 (fun x hx => hmem x (List.mem_cons_of_mem _ hx)) hcf.2 e2 h1
        exact hsub kvs (fun x hx => hx) hclean.2 e h0

/-- Claim C5 (amended): the flatten/lookup round trip holds for every
configuration tree whose root is a mapping, that contains no arrays, and
whose object keys are nonempty, dot-free and duplicate-free.  (A truthy
scalar root also breaks the round trip — see the counterexample — so the
mapping-root condition is load-bearing.) -/
theorem c5_flatten_roundtrip (kvs : List (Str × YVal))
    (hclean : cleanVal (YVal.obj kvs) = true) :
    ∀ e ∈ flattenValues (YVal.obj kvs) [],
      getValueByPath (YVal.obj kvs) e.path = some e.value := by
  unfold cleanVal at hclean
  rw [Bool.and_eq_true] at hclean
  have hroot : ∀ (kvs0 : List (Str × YVal)), (∀ x ∈ kvs0, x ∈ kvs) →
      cleanFieldsList kvs0 = true →
      ∀ e ∈ flattenFields kvs0 [],
        lookupParts (YVal.obj kvs) (splitChar '.' e.path) = some e.value := by
    intro kvs0
    induction kvs0 with
    | nil => intro _ _ e he; simp [flattenFields] at he
    | cons pair rest ih2 =>
      obtain ⟨k, child⟩ := pair
      intro hmem hcf e he
      unfold cleanFieldsList at hcf
      rw [Bool.and_eq_true] at hcf
      rw [show flattenFields ((k, child) :: rest) [] =
        flattenValues child (if ([] : Str).isEmpty then k else [] ++ '.' :: k) ++
          flattenFields rest [] from rfl] at he
      simp only [List.isEmpty_nil, if_true] at he
      rcases List.mem_append.mp he with h1 | h1
      · have hkmem : k ∈ kvs.map Prod.fst :=
          List.mem_map.mpr ⟨(k, child), hmem _ (List.mem_cons_self _ _), rfl⟩
        obtain ⟨hkne, hkdot⟩ := keysOk_mem hclean.1 hkmem
        obtain ⟨rs, hsplit, hlook⟩ := flatten_lookup_aux (sizeOf child) child (le_refl _)
          hcf.1 k hkne e h1
        rw [hsplit, splitChar_no_sep '.' k hkdot]
        rw [show lookupParts (YVal.obj kvs) ([k] ++ rs) =
          (match mapGet kvs k with
            | some v => lookupParts v rs
            | none => none) from rfl]
        rw [mapGet_of_keysOk hclean.1 (hmem _ (List.mem_cons_self _ _))]
        exact hlook
      · exact ih2 (fun x hx => hmem x (List.mem_cons_of_mem _ hx)) hcf.2 e h1
  intro e he
  rw [show flattenValues (YVal.obj kvs) [] = flattenFields kvs [] from rfl] at he
  exact hroot kvs (fun x hx => hx) hclean.2 e he

/-- Witness for C5's amended statement at a concrete clean tree. -/
theorem c5_flatten_roundtrip_witness :
    (cleanVal (YVal.obj [(('a' :: []), YVal.obj [(('b' :: []), YVal.num 1)]),
        (('c' :: []), YVal.str ('x' :: []))]) = true) ∧
    (∀ e ∈ flattenValues (YVal.obj [(('a' :: []), YVal.obj [(('b' :: []), YVal.num 1)]),
        (('c' :: []), YVal.str ('x' :: []))]) [],
      getValueByPath (YVal.obj [(('a' :: []), YVal.obj [(('b' :: []), YVal.num 1)]),
        (('c' :: []), YVal.str ('x' :: []))]) e.path = some e.value) :=
  ⟨by rfl, c5_flatten_roundtrip _ (by rfl)⟩

/-- Counterexample to C5 as stated: in the tree `{a: [1]}` the flattened
entry for the array element has path `a[0]` and value `1`, but the
path-lookup accessor splits only on dots, so looking `a[0]` up returns
`undefined`, not the recorded value.  A second failure mode: a truthy
scalar root (values content `5`, kept by `yaml.load(content) || \x7b\x7d`)
is array-free with vacuously clean keys, yet flattens to the single path
`""`, which the accessor cannot resolve on a non-object. -/
theorem c5_counterexample :
    (((flattenValues (YVal.obj [(('a' :: []), YVal.arr [YVal.num 1])]) [])[1]?.map
        ValueKey.path = some (("a[0]".data : Str))) ∧
    ((flattenValues (YVal.obj [(('a' :: []), YVal.arr [YVal.num 1])]) [])[1]?.map
        ValueKey.value = some (YVal.num 1)) ∧
    getValueByPath (YVal.obj [(('a' :: []), YVal.arr [YVal.num 1])]) ("a[0]".data) = none ∧
    getValueByPath (YVal.obj [(('a' :: []), YVal.arr [YVal.num 1])]) ("a[0]".data) ≠
      some (YVal.num 1)) ∧
    (cleanVal (YVal.num 5) = true ∧
    (parseValuesYaml (fun _ => Except.ok (YVal.num 5)) ("5".data)).raw = YVal.num 5 ∧
    (flattenValues (YVal.num 5) []).map ValueKey.path = [([] : Str)] ∧
    (flattenValues (YVal.num 5) []).map ValueKey.value = [YVal.num 5] ∧
    getValueByPath (YVal.num 5) [] = none) := by
  refine ⟨⟨rfl, rfl, rfl, ?_⟩, rfl, rfl, rfl, rfl, rfl⟩
  intro h
  exact Option.noConfusion h

/-! ### Chart assembly error handling (C2) -/

theorem parseFilesLoop_no_chart (yl : Str → Except Str YVal) :
    ∀ (files : List (Str × Str)) (acc : ParseAcc),
    (∀ pc ∈ files, ¬(isRelevantFile (normalizePath pc.1) = true ∧
        determineFileType (normalizePath pc.1) = FileType.chart)) →
    ∃ acc2, parseFilesLoop yl files acc = .ok acc2 ∧ acc2.chartYaml = acc.chartYaml := by
  intro files
  induction files with
  | nil => intro acc _; exact ⟨acc, rfl, rfl⟩
  | cons pc rest ih =>
    intro acc hnc
    obtain ⟨rawPath, content⟩ := pc
    have hrest := fun x hx => hnc x (List.mem_cons_of_mem _ hx)
    have hthis := hnc (rawPath, content) (List.mem_cons_self _ _)
    unfold parseFilesLoop
    by_cases hrel : isRelevantFile (normalizePath rawPath) = true
    · rw [if_pos hrel]
      have hnotchart : determineFileType (normalizePath rawPath) ≠ FileType.chart := by
        intro hc
        exact hthis ⟨hrel, hc⟩
      cases hft : determineFileType (normalizePath rawPath) with
      | chart => exact absurd hft hnotchart
      | values => exact ih _ hrest
      | template => exact ih _ hrest
      | helper => exact ih _ hrest
      | notes => exact ih _ hrest
      | other => exact ih _ hrest
    · rw [if_neg hrel]
      exact ih _ hrest

theorem parseDependenciesGo_ok (xs : List YVal) (hnn : YVal.null ∉ xs) :
    ∃ ds, parseDependenciesGo xs = Except.ok ds := by
  induction xs with
  | nil => exact ⟨[], rfl⟩
  | cons x rest ih =>
    obtain ⟨ds, hds⟩ := ih (fun h => hnn (List.mem_cons_of_mem _ h))
    have hx : x ≠ YVal.null := fun h => hnn (h ▸ List.mem_cons_self _ _)
    cases x with
    | null => exact absurd rfl hx
    | bool b =>
      refine ⟨mkDependency (YVal.bool b) :: ds, ?_⟩
      simp only [parseDependenciesGo, hds]
    | num n =>
      refine ⟨mkDependency (YVal.num n) :: ds, ?_⟩
      simp only [parseDependenciesGo, hds]
    | str s =>
      refine ⟨mkDependency (YVal.str s) :: ds, ?_⟩
      simp only [parseDependenciesGo, hds]
    | arr ys =>
      refine ⟨mkDependency (YVal.arr ys) :: ds, ?_⟩
      simp only [parseDependenciesGo, hds]
    | obj kvs =>
      refine ⟨mkDependency (YVal.obj kvs) :: ds, ?_⟩
      simp only [parseDependenciesGo, hds]

theorem parseDependencies_ok (v : YVal)
    (hdeps : ∀ ds, v = YVal.arr ds → YVal.null ∉ ds) :
    ∃ out, parseDependencies v = Except.ok out := by
  cases v with
  | arr xs =>
    obtain ⟨ds, hds⟩ := parseDependenciesGo_ok xs (hdeps xs rfl)
    exact ⟨ds, hds⟩
  | null => exact ⟨[], rfl⟩
  | bool b => exact ⟨[], rfl⟩
  | num n => exact ⟨[], rfl⟩
  | str s => exact ⟨[], rfl⟩
  | obj kvs => exact ⟨[], rfl⟩

/-- Counterexample to C2: a relevant `Chart.yaml` whose YAML text makes
the loader throw is NOT caught — the exception propagates out of
`parseHelmChart` (there is no try/catch around `parseChartYaml`). -/
theorem c2_counterexample :
    parseHelmChart (fun _ => Except.error ("YAMLException: bad".data))
      [(("Chart.yaml".data : Str), ("x: [".data : Str))] =
      Except.error ("YAMLException: bad".data) := rfl

/-- Claim C2 (amended): chart assembly always succeeds, with the
`unknown-chart`/`0.0.0`/`v2` stub, whenever the mapping contains no
relevant Chart.yaml file; malformed VALUES yaml is caught and treated as
an empty mapping; and a Chart.yaml whose YAML loads to a non-null value
with no null dependency array element also succeeds.  But a relevant
Chart.yaml whose YAML parse throws (or yields null) fails the whole parse
(see the counterexample), and a null element of the `dependencies` array
makes the unguarded `d.name` access throw a `TypeError` (last conjunct). -/
theorem c2_chart_assembly :
    (∀ (yl : Str → Except Str YVal) (files : List (Str × Str)),
      (∀ pc ∈ files, ¬(isRelevantFile (normalizePath pc.1) = true ∧
        determineFileType (normalizePath pc.1) = FileType.chart)) →
      ∃ chart, parseHelmChart yl files = .ok chart ∧
        chart.chartYaml.name = "unknown-chart".data ∧
        chart.chartYaml.version = "0.0.0".data ∧
        chart.chartYaml.apiVersion = "v2".data ∧
        chart.name = "unknown-chart".data) ∧
    (∀ (yl : Str → Except Str YVal) (content e : Str), yl content = .error e →
      parseValuesYaml yl content = { raw := YVal.obj [], flatKeys := [] }) ∧
    (∀ (yl : Str → Except Str YVal) (content : Str) (v : YVal), yl content = .ok v →
      v ≠ YVal.null →
      (∀ ds, getProp v ("dependencies".data) = YVal.arr ds → YVal.null ∉ ds) →
      ∃ cy, parseChartYaml yl content = .ok cy) ∧
    (parseChartYaml
        (fun _ => Except.ok (YVal.obj [(("dependencies".data : Str), YVal.arr [YVal.null])]))
        ("dependencies:\n- ~".data) =
      .error ("TypeError: cannot read properties of null".data)) := by
  refine ⟨?_, ?_, ?_, ?_⟩
  · intro yl files hnc
    obtain ⟨acc2, hok, hcy⟩ :=
      parseFilesLoop_no_chart yl files ⟨[], none, emptyValuesData, [], []⟩ hnc
    have hrun : parseHelmChart yl files = .ok
        { name := (acc2.chartYaml.getD defaultChartYaml).name,
          version := (acc2.chartYaml.getD defaultChartYaml).version,
          description := (acc2.chartYaml.getD defaultChartYaml).description,
          files := acc2.helmFiles, values := acc2.values,
          chartYaml := acc2.chartYaml.getD defaultChartYaml,
          references := acc2.references, helpers := acc2.helpers,
          dependencies := (acc2.chartYaml.getD defaultChartYaml).dependencies } := by
      unfold parseHelmChart
      rw [hok]
    refine ⟨_, hrun, ?_, ?_, ?_, ?_⟩ <;>
      simp [hcy, defaultChartYaml]
  · intro yl content e he
    unfold parseValuesYaml
    rw [he]
    rfl
  · intro yl content v hv hvn hdeps
    obtain ⟨out, hout⟩ := parseDependencies_ok (getProp v ("dependencies".data)) hdeps
    unfold parseChartYaml
    rw [hv]
    cases v with
    | null => exact absurd rfl hvn
    | bool b => exact ⟨_, rfl⟩
    | num n => exact ⟨_, rfl⟩
    | str s => exact ⟨_, rfl⟩
    | arr xs => exact ⟨_, rfl⟩
    | obj kvs =>
      refine ⟨chartYamlOf (YVal.obj kvs) out, ?_⟩
      show (match parseDependencies (getProp (YVal.obj kvs) ("dependencies".data)) with
        | Except.error e => (Except.error e : Except Str ChartYaml)
        | Except.ok deps => Except.ok (chartYamlOf (YVal.obj kvs) deps)) =
        Except.ok (chartYamlOf (YVal.obj kvs) out)
      rw [hout]
  · rfl

/-- Witness for C2's amended statement at concrete inputs. -/
theorem c2_chart_assembly_witness :
    ((∀ pc ∈ [(("values.yaml".data : Str), ("a: 1".data : Str))],
        ¬(isRelevantFile (normalizePath pc.1) = true ∧
          determineFileType (normalizePath pc.1) = FileType.chart)) ∧
      (fun _ => (Except.error ("bad".data) : Except Str YVal)) ("x: [".data) =
        .error ("bad".data) ∧
      (fun _ => (Except.ok (YVal.obj []) : Except Str YVal)) ("name: c".data) =
        .ok (YVal.obj []) ∧ (YVal.obj []) ≠ YVal.null ∧
      (∀ ds, getProp (YVal.obj []) ("dependencies".data) = YVal.arr ds →
        YVal.null ∉ ds)) ∧
    (∃ chart, parseHelmChart (fun _ => (Except.error ("bad".data) : Except Str YVal))
        [(("values.yaml".data : Str), ("a: 1".data : Str))] = .ok chart ∧
      chart.chartYaml.name = "unknown-chart".data ∧
      chart.chartYaml.version = "0.0.0".data ∧
      chart.chartYaml.apiVersion = "v2".data ∧
      chart.name = "unknown-chart".data) ∧
    (parseValuesYaml (fun _ => (Except.error ("bad".data) : Except Str YVal)) ("x: [".data) =
      { raw := YVal.obj [], flatKeys := [] }) ∧
    (∃ cy, parseChartYaml (fun _ => (Except.ok (YVal.obj []) : Except Str YVal))
      ("name: c".data) = .ok cy) :=
  ⟨⟨by decide, rfl, rfl, by intro h; exact YVal.noConfusion h,
      fun ds h => absurd h (by intro hh; exact YVal.noConfusion hh)⟩,
    c2_chart_assembly.1 _ _ (by decide),
    c2_chart_assembly.2.1 _ _ ("bad".data) rfl,
    c2_chart_assembly.2.2.1 _ _ _ rfl (by intro h; exact YVal.noConfusion h)
      (fun ds h => absurd h (by intro hh; exact YVal.noConfusion hh))⟩

/-! ### Layout engine lemmas (C7, C9) -/

/-- `autoOrganizeLayout` unfolded: the position map is computed from the
nodes' (id, type, data) projections only, then re-attached. -/
theorem layout_apply (ns : List GraphNode) (es : List GraphEdge) :
    autoOrganizeLayout ns es = ns.map (fun n =>
      { n with position := Option.getD (mapGet (computePositions (ns.map nodeKey) es) n.id) n.position }) := rfl

theorem autoOrganizeLayout_map_nodeKey (ns : List GraphNode) (es : List GraphEdge) :
    (autoOrganizeLayout ns es).map nodeKey = ns.map nodeKey := by
  rw [layout_apply, List.map_map]
  apply List.map_eq_map_iff.mpr
  intro n _
  rfl

theorem mem_layout_of_mem {ns : List GraphNode} (es : List GraphEdge) {n : GraphNode}
    (hn : n ∈ ns) :
    ∃ n2 ∈ autoOrganizeLayout ns es, n2.id = n.id ∧ n2.type = n.type ∧ n2.data = n.data := by
  rw [layout_apply]
  exact ⟨_, List.mem_map_of_mem _ hn, rfl, rfl, rfl⟩

/-- Claim C7: the layout engine is idempotent — re-running it on its own
output (same ids, types, data and edges) yields identical positions. -/
theorem c7_layout_idempotent (ns : List GraphNode) (es : List GraphEdge) :
    autoOrganizeLayout (autoOrganizeLayout ns es) es = autoOrganizeLayout ns es := by
  rw [layout_apply (autoOrganizeLayout ns es) es, autoOrganizeLayout_map_nodeKey ns es]
  rw [layout_apply ns es, List.map_map]
  apply List.map_eq_map_iff.mpr
  intro n _
  simp only [Function.comp_apply]
  cases hmg : mapGet (computePositions (ns.map nodeKey) es) n.id with
  | some p => simp [hmg]
  | none => simp [hmg]

/-- Claim C9: layout changes only positions — node ids, types, data and
count are untouched, and the edge list handed to the renderer is the
reference-derived list itself, unmodified by layout. -/
theorem c9_layout_frame (ns : List GraphNode) (es : List GraphEdge) :
    (autoOrganizeLayout ns es).map GraphNode.id = ns.map GraphNode.id ∧
    (autoOrganizeLayout ns es).map GraphNode.type = ns.map GraphNode.type ∧
    (autoOrganizeLayout ns es).map GraphNode.data = ns.map GraphNode.data ∧
    (autoOrganizeLayout ns es).length = ns.length ∧
    (∀ chart : HelmChart, (buildGraphData chart).edges =
      chart.references.filterMap (fun r => createEdge r chart)) := by
  refine ⟨?_, ?_, ?_, ?_, fun _ => rfl⟩
  · rw [layout_apply, List.map_map]
    exact List.map_eq_map_iff.mpr (fun n _ => rfl)
  · rw [layout_apply, List.map_map]
    exact List.map_eq_map_iff.mpr (fun n _ => rfl)
  · rw [layout_apply, List.map_map]
    exact List.map_eq_map_iff.mpr (fun n _ => rfl)
  · rw [layout_apply]
    exact List.length_map _ _

/-! ### Graph builder lemmas (C3, C10) -/

theorem buildGraphData_nodes_apply (chart : HelmChart) :
    (buildGraphData chart).nodes = autoOrganizeLayout (
      (chart.files.filter (fun f => f.type == FileType.template ||
          f.type == FileType.helper || f.type == FileType.notes)).map
        (fun f => createFileNode f.path f.name f.type 0 0) ++
      (match chart.files.find? (fun f => f.type == FileType.chart) with
       | some cf => [createFileNode cf.path cf.name .chart 0 0]
       | none => []) ++
      [createReleaseNode 0 0] ++
      (match chart.files.find? (fun f => f.type == FileType.values) with
       | some vf => [createFileNode vf.path vf.name .values 0 0]
       | none => []) ++
      (getReferencedValuePaths chart).map (fun p => createValueNode p (valueNodeLabel p) 0 0) ++
      chart.helpers.map (fun h => createHelperNode h.name 0 0))
      (chart.references.filterMap (fun r => createEdge r chart)) := rfl

theorem buildGraphData_edges_apply (chart : HelmChart) :
    (buildGraphData chart).edges = chart.references.filterMap (fun r => createEdge r chart) := rfl

theorem dedupFirstGo_mem {x : Str} : ∀ (l seen : List Str), x ∈ l → ¬ x ∈ seen →
    x ∈ dedupFirstGo seen l := by
  intro l
  induction l with
  | nil => intro seen h; simp at h
  | cons y ys ih =>
    intro seen hx hns
    unfold dedupFirstGo
    by_cases hy : seen.contains y = true
    · rw [if_pos hy]
      rcases List.mem_cons.mp hx with h0 | h0
      · subst h0
        exact absurd (List.elem_iff.mp hy) hns
      · exact ih seen h0 hns
    · rw [if_neg hy]
      rcases List.mem_cons.mp hx with h0 | h0
      · subst h0
        exact List.mem_cons_self _ _
      · by_cases hxy : x = y
        · subst hxy
          exact List.mem_cons_self _ _
        · refine List.mem_cons_of_mem _ (ih _ h0 ?_)
          intro hmem
          rcases List.mem_append.mp hmem with hm | hm
          · exact hns hm
          · simp at hm
            exact hxy hm

theorem dedupFirst_mem {x : Str} {l : List Str} (h : x ∈ l) : x ∈ dedupFirst l :=
  dedupFirstGo_mem l [] h (by simp)

theorem createEdge_fields {r : Reference} {chart : HelmChart} {e : GraphEdge}
    (h : createEdge r chart = some e) :
    e.source = "file:".data ++ r.source.file ∧ e.data.referenceType = r.type ∧
    (r.type = .values → e.target = "value:".data ++ r.target.path) ∧
    ((r.type = .includeT ∨ r.type = .template) → e.target = "helper:".data ++ r.target.path) ∧
    (r.type = .release → e.target = "release:info".data) ∧
    (r.type = .chart → ∃ cf, chart.files.find? (fun f => f.type == FileType.chart) = some cf ∧
      e.target = "file:".data ++ cf.path) ∧
    r.type ≠ .files ∧ r.type ≠ .capabilities := by
  unfold createEdge at h
  cases hrt : r.type
  case values =>
    rw [hrt] at h
    simp only [Option.some.injEq] at h
    subst h
    refine ⟨rfl, rfl, ?_, ?_, ?_, ?_, ?_, ?_⟩ <;> simp [hrt]
  case includeT =>
    rw [hrt] at h
    simp only [Option.some.injEq] at h
    subst h
    refine ⟨rfl, rfl, ?_, ?_, ?_, ?_, ?_, ?_⟩ <;> simp [hrt]
  case template =>
    rw [hrt] at h
    simp only [Option.some.injEq] at h
    subst h
    refine ⟨rfl, rfl, ?_, ?_, ?_, ?_, ?_, ?_⟩ <;> simp [hrt]
  case chart =>
    rw [hrt] at h
    cases hf : chart.files.find? (fun f => f.type == FileType.chart) with
    | none =>
      rw [hf] at h
      simp at h
    | some cf =>
      rw [hf] at h
      simp only [Option.some.injEq] at h
      subst h
      refine ⟨rfl, rfl, by simp [hrt], by simp [hrt], by simp [hrt], ?_,
        by simp [hrt], by simp [hrt]⟩
      intro _
      exact ⟨cf, rfl, rfl⟩
  case release =>
    rw [hrt] at h
    simp only [Option.some.injEq] at h
    subst h
    refine ⟨rfl, rfl, ?_, ?_, ?_, ?_, ?_, ?_⟩ <;> simp [hrt]
  case files =>
    rw [hrt] at h
    simp at h
  case capabilities =>
    rw [hrt] at h
    simp at h

theorem mem_append6 {α : Type} {m : α} {A B C D E F : List α}
    (h : m ∈ A ∨ m ∈ B ∨ m ∈ C ∨ m ∈ D ∨ m ∈ E ∨ m ∈ F) :
    m ∈ A ++ B ++ C ++ D ++ E ++ F := by
  simp only [List.mem_append]
  tauto

/-- Any node of the raw construction list survives into
`(buildGraphData chart).nodes` with its id and type. -/
theorem buildGraphData_mem_node {chart : HelmChart} {m : GraphNode}
    (hm : m ∈ (chart.files.filter (fun f => f.type == FileType.template ||
          f.type == FileType.helper || f.type == FileType.notes)).map
        (fun f => createFileNode f.path f.name f.type 0 0) ∨
      m ∈ (match chart.files.find? (fun f => f.type == FileType.chart) with
        | some cf => [createFileNode cf.path cf.name .chart 0 0]
        | none => []) ∨
      m ∈ [createReleaseNode 0 0] ∨
      m ∈ (match chart.files.find? (fun f => f.type == FileType.values) with
        | some vf => [createFileNode vf.path vf.name .values 0 0]
        | none => []) ∨
      m ∈ (getReferencedValuePaths chart).map
        (fun p => createValueNode p (valueNodeLabel p) 0 0) ∨
      m ∈ chart.helpers.map (fun h => createHelperNode h.name 0 0)) :
    ∃ n ∈ (buildGraphData chart).nodes, n.id = m.id ∧ n.type = m.type := by
  rw [buildGraphData_nodes_apply]
  obtain ⟨n2, hn2, h1, h2, _⟩ := mem_layout_of_mem _ (mem_append6 hm)
  exact ⟨n2, hn2, h1, h2⟩

/-- Counterexample to C3: on `c3Chart` (one template file, one `include`
reference to a helper with no matching definition) the graph keeps an
edge whose target `helper:nope` is the id of no node — the edge dangles
instead of being dropped. -/
theorem c3_counterexample :
    ((buildGraphData c3Chart).edges.map (fun e => (e.source, e.target)) =
      [(("file:templates/d.yaml".data : Str), ("helper:nope".data : Str))]) ∧
    ¬ ∃ n ∈ (buildGraphData c3Chart).nodes, n.id = ("helper:nope".data : Str) := by
  constructor
  · decide
  · decide

/-- Claim C3 (amended): every edge's target resolves to an existing node
for `values`, `release` and `chart` references (a `chart` edge is
dropped when no chart-metadata file exists, so surviving chart edges
resolve); `files`/`capabilities` references produce no edges; but
`include`/`template` edges are kept even when no helper definition
matches the name — their target is a node id only when a matching
definition exists, otherwise the edge dangles. -/
theorem c3_edge_resolution (chart : HelmChart) (e : GraphEdge)
    (he : e ∈ (buildGraphData chart).edges) :
    (e.data.referenceType = .values ∨ e.data.referenceType = .release ∨
        e.data.referenceType = .chart →
      ∃ n ∈ (buildGraphData chart).nodes, n.id = e.target) ∧
    (e.data.referenceType = .includeT ∨ e.data.referenceType = .template →
      ∃ p, e.target = "helper:".data ++ p ∧
        ((∃ hd ∈ chart.helpers, hd.name = p) →
          ∃ n ∈ (buildGraphData chart).nodes, n.id = e.target)) ∧
    e.data.referenceType ≠ .files ∧ e.data.referenceType ≠ .capabilities := by
  rw [buildGraphData_edges_apply] at he
  obtain ⟨r, hr, hce⟩ := List.mem_filterMap.mp he
  obtain ⟨hsrc, hrt, hval, hhelp, hrel, hchart, hnf, hnc⟩ := createEdge_fields hce
  refine ⟨?_, ?_, by rw [hrt]; exact hnf, by rw [hrt]; exact hnc⟩
  · intro hcase
    rw [hrt] at hcase
    rcases hcase with hc | hc | hc
    · have htgt := hval hc
      have hpath : r.target.path ∈ getReferencedValuePaths chart := by
        unfold getReferencedValuePaths
        apply dedupFirst_mem
        exact List.mem_map.mpr ⟨r, List.mem_filter.mpr ⟨hr, by simp [hc]⟩, rfl⟩
      obtain ⟨n, hn, hid, _⟩ := buildGraphData_mem_node
        (m := createValueNode r.target.path (valueNodeLabel r.target.path) 0 0)
        (Or.inr (Or.inr (Or.inr (Or.inr (Or.inl
          (List.mem_map.mpr ⟨r.target.path, hpath, rfl⟩))))))
      exact ⟨n, hn, by rw [hid, htgt]; rfl⟩
    · have htgt := hrel hc
      obtain ⟨n, hn, hid, _⟩ := buildGraphData_mem_node (m := createReleaseNode 0 0)
        (Or.inr (Or.inr (Or.inl (List.mem_singleton.mpr rfl))))
      exact ⟨n, hn, by rw [hid, htgt]; rfl⟩
    · obtain ⟨cf, hfind, htgt⟩ := hchart hc
      have hB : createFileNode cf.path cf.name .chart 0 0 ∈
          (match chart.files.find? (fun f => f.type == FileType.chart) with
            | some cf2 => [createFileNode cf2.path cf2.name .chart 0 0]
            | none => []) := by
        rw [hfind]
        exact List.mem_singleton.mpr rfl
      obtain ⟨n, hn, hid, _⟩ := buildGraphData_mem_node (Or.inr (Or.inl hB))
      exact ⟨n, hn, by rw [hid, htgt]; rfl⟩
  · intro hcase
    rw [hrt] at hcase
    have htgt := hhelp hcase
    refine ⟨r.target.path, htgt, ?_⟩
    intro ⟨hd, hhd, hname⟩
    obtain ⟨n, hn, hid, _⟩ := buildGraphData_mem_node
      (m := createHelperNode hd.name 0 0)
      (Or.inr (Or.inr (Or.inr (Or.inr (Or.inr (List.mem_map.mpr ⟨hd, hhd, rfl⟩))))))
    refine ⟨n, hn, ?_⟩
    rw [hid, htgt, ← hname]
    rfl

/-- Witness for C3's amended statement at the concrete chart `c10Chart`
and its single values edge. -/
theorem c3_edge_resolution_witness :
    (c10Edge ∈ (buildGraphData c10Chart).edges) ∧
    (c10Edge.data.referenceType = .values ∨ c10Edge.data.referenceType = .release ∨
      c10Edge.data.referenceType = .chart) ∧
    (∃ n ∈ (buildGraphData c10Chart).nodes, n.id = c10Edge.target) :=
  ⟨by decide, Or.inl rfl,
    (c3_edge_resolution c10Chart c10Edge (by decide)).1 (Or.inl rfl)⟩

theorem lineReferences_source {line f : Str} {n : Nat} {r : Reference}
    (h : r ∈ lineReferences line f n) : r.source.file = f := by
  unfold lineReferences at h
  rcases List.mem_append.mp h with h | h5
  rcases List.mem_append.mp h with h | h4
  rcases List.mem_append.mp h with h | h3
  rcases List.mem_append.mp h with h | h2
  rcases List.mem_append.mp h with h0 | h1
  · obtain ⟨m, _, hm⟩ := List.mem_map.mp h0
    rw [← hm]
  · unfold extractIncludeReferences at h1
    rcases List.mem_append.mp h1 with ha | hb
    · obtain ⟨m, _, hm⟩ := List.mem_map.mp ha
      rw [← hm]
    · obtain ⟨m, _, hm⟩ := List.mem_map.mp hb
      rw [← hm]
  · obtain ⟨m, _, hm⟩ := List.mem_map.mp h2
    rw [← hm]
  · obtain ⟨m, _, hm⟩ := List.mem_map.mp h3
    rw [← hm]
  · obtain ⟨m, _, hm⟩ := List.mem_map.mp h4
    rw [← hm]
  · obtain ⟨m, _, hm⟩ := List.mem_map.mp h5
    rw [← hm]

theorem extractReferences_source {content f : Str} {r : Reference}
    (h : r ∈ extractReferences content f) : r.source.file = f := by
  unfold extractReferences at h
  obtain ⟨p, _, hp⟩ := List.mem_flatMap.mp h
  exact lineReferences_source hp

/-- Loop invariant: every accumulated reference was extracted from an
accumulated file of type template, helper or notes, under that file's
normalized path. -/
theorem parseFilesLoop_sources (yl : Str → Except Str YVal) :
    ∀ (files : List (Str × Str)) (acc acc2 : ParseAcc),
    parseFilesLoop yl files acc = .ok acc2 →
    (∀ r ∈ acc.references, ∃ hf ∈ acc.helmFiles, hf.path = r.source.file ∧
      (hf.type = FileType.template ∨ hf.type = FileType.helper ∨ hf.type = FileType.notes)) →
    ∀ r ∈ acc2.references, ∃ hf ∈ acc2.helmFiles, hf.path = r.source.file ∧
      (hf.type = FileType.template ∨ hf.type = FileType.helper ∨ hf.type = FileType.notes) := by
  intro files
  induction files with
  | nil =>
    intro acc acc2 hok hinv
    unfold parseFilesLoop at hok
    simp only [Except.ok.injEq] at hok
    subst hok
    exact hinv
  | cons pc rest ih =>
    intro acc acc2 hok hinv
    obtain ⟨rawPath, content⟩ := pc
    unfold parseFilesLoop at hok
    by_cases hrel : isRelevantFile (normalizePath rawPath) = true
    · rw [if_pos hrel] at hok
      cases hft : determineFileType (normalizePath rawPath) with
      | chart =>
        simp only [hft] at hok
        cases hcy : parseChartYaml yl content with
        | error e2 => simp [hcy] at hok
        | ok cy =>
          simp only [hcy] at hok
          refine ih _ _ hok ?_
          intro r hr
          obtain ⟨hf, hhf, hp, ht⟩ := hinv r hr
          exact ⟨hf, List.mem_append.mpr (Or.inl hhf), hp, ht⟩
      | values =>
        simp only [hft] at hok
        refine ih _ _ hok ?_
        intro r hr
        obtain ⟨hf, hhf, hp, ht⟩ := hinv r hr
        exact ⟨hf, List.mem_append.mpr (Or.inl hhf), hp, ht⟩
      | template =>
        simp only [hft] at hok
        refine ih _ _ hok ?_
        intro r hr
        rcases List.mem_append.mp hr with h0 | h1
        · obtain ⟨hf, hhf, hp, ht⟩ := hinv r h0
          exact ⟨hf, List.mem_append.mpr (Or.inl hhf), hp, ht⟩
        · refine ⟨⟨normalizePath rawPath, getFileName (normalizePath rawPath),
            FileType.template, content⟩,
            List.mem_append.mpr (Or.inr (List.mem_singleton.mpr rfl)),
            (extractReferences_source h1).symm, Or.inl rfl⟩
      | helper =>
        simp only [hft] at hok
        refine ih _ _ hok ?_
        intro r hr
        rcases List.mem_append.mp hr with h0 | h1
        · obtain ⟨hf, hhf, hp, ht⟩ := hinv r h0
          exact ⟨hf, List.mem_append.mpr (Or.inl hhf), hp, ht⟩
        · refine ⟨⟨normalizePath rawPath, getFileName (normalizePath rawPath),
            FileType.helper, content⟩,
            List.mem_append.mpr (Or.inr (List.mem_singleton.mpr rfl)),
            (extractReferences_source h1).symm, Or.inr (Or.inl rfl)⟩
      | notes =>
        simp only [hft] at hok
        refine ih _ _ hok ?_
        intro r hr
        rcases List.mem_append.mp hr with h0 | h1
        · obtain ⟨hf, hhf, hp, ht⟩ := hinv r h0
          exact ⟨hf, List.mem_append.mpr (Or.inl hhf), hp, ht⟩
        · refine ⟨⟨normalizePath rawPath, getFileName (normalizePath rawPath),
            FileType.notes, content⟩,
            List.mem_append.mpr (Or.inr (List.mem_singleton.mpr rfl)),
            (extractReferences_source h1).symm, Or.inr (Or.inr rfl)⟩
      | other =>
        simp only [hft] at hok
        refine ih _ _ hok ?_
        intro r hr
        obtain ⟨hf, hhf, hp, ht⟩ := hinv r hr
        exact ⟨hf, List.mem_append.mpr (Or.inl hhf), hp, ht⟩
    · rw [if_neg hrel] at hok
      exact ih _ _ hok hinv

/-- Claim C10: for every chart produced by `parseHelmChart`, every edge
of `buildGraphData` has a source id naming a `file` node present in the
node set — references are extracted only from template/helper/notes
files, each of which gets a file node, so edge sources never dangle. -/
theorem c10_edge_sources (yl : Str → Except Str YVal) (files : List (Str × Str))
    (chart : HelmChart) (hok : parseHelmChart yl files = .ok chart) :
    ∀ e ∈ (buildGraphData chart).edges, ∃ n ∈ (buildGraphData chart).nodes,
      n.id = e.source ∧ n.type = "file".data := by
  unfold parseHelmChart at hok
  cases hloop : parseFilesLoop yl files ⟨[], none, emptyValuesData, [], []⟩ with
  | error e2 => simp [hloop] at hok
  | ok acc =>
    simp only [hloop, Except.ok.injEq] at hok
    have hfiles : chart.files = acc.helmFiles := by rw [← hok]
    have hrefs : chart.references = acc.references := by rw [← hok]
    have hsrc := parseFilesLoop_sources yl files _ acc hloop (by intro r hr; simp at hr)
    intro e he
    rw [buildGraphData_edges_apply] at he
    obtain ⟨r, hr, hce⟩ := List.mem_filterMap.mp he
    obtain ⟨hesrc, _⟩ := createEdge_fields hce
    rw [hrefs] at hr
    obtain ⟨hf, hhf, hp, htyp⟩ := hsrc r hr
    have hfil : hf ∈ List.filter (fun f => f.type == FileType.template ||
        f.type == FileType.helper || f.type == FileType.notes) chart.files := by
      rw [hfiles]
      exact List.mem_filter.mpr ⟨hhf, by rcases htyp with h | h | h <;> simp [h]⟩
    obtain ⟨n, hn, hid, hty⟩ := buildGraphData_mem_node
      (m := createFileNode hf.path hf.name hf.type 0 0)
      (Or.inl (List.mem_map.mpr ⟨hf, hfil, rfl⟩))
    refine ⟨n, hn, ?_, hty⟩
    rw [hid, hesrc]
    show "file:".data ++ hf.path = "file:".data ++ r.source.file
    rw [hp]

/-- Witness for C10 at a concrete parsed chart and its single edge. -/
theorem c10_edge_sources_witness :
    (parseHelmChart (fun _ => Except.ok YVal.null)
        [(("c/templates/t.yaml".data : Str), (".Values.a".data : Str))] = .ok c10Chart) ∧
    c10Edge ∈ (buildGraphData c10Chart).edges ∧
    (∃ n ∈ (buildGraphData c10Chart).nodes, n.id = c10Edge.source ∧
      n.type = "file".data) :=
  ⟨rfl, by decide,
    c10_edge_sources (fun _ => Except.ok YVal.null)
      [(("c/templates/t.yaml".data : Str), (".Values.a".data : Str))] c10Chart rfl
      c10Edge (by decide)⟩

end HelmViz
